import Mathlib

/-!
# Verification of the fuel-core client extension's tracing and recovery logic

A shallow embedding of the two algorithmic parts of the repository:

* `FullBlock::block_producer` (src/lib.rs, lines 70-84): recovers the block
  producer's public key from the consensus variant of a block.
* The provenance tracer in the test module (src/lib.rs, lines 184-465):
  the `Stat` working state with its two dedup-guarded queues
  (`check_address` / `check_utxo`), per-transaction receipt and input
  classification (`analyze_transactions`), and the nested queue-draining
  loop of `find_addresses` that classifies outputs as spent or unspent and
  collects bridge-message identifiers.

Opaque chain identifiers (addresses, transaction ids, asset ids, message
nonces and payloads, public keys, signatures) are modelled as `Nat`; they
are only created, stored and compared by the code.  External library
functions (the message-id hash `Input::compute_message_id`, signature
recovery, the GraphQL client) are parameters of the embedding: theorems
quantify over them.  Fallible operations (panicking `unwrap` / `expect` /
`unreachable` calls, failing network fetches) return `Option` / `Except`.
-/

set_option synthInstance.maxHeartbeats 1000000
set_option maxHeartbeats 1000000

namespace FuelTrace

abbrev Address := Nat
abbrev TxId := Nat
abbrev AssetId := Nat
abbrev Amount := Nat
abbrev MessageId := Nat
abbrev PublicKey := Nat
abbrev Signature := Nat
abbrev Message := Nat

/-- An output reference: producing transaction id and output index
(the index is a `u8` in the source, so call sites reduce it mod 256). -/
abbrev UtxoId := TxId × Nat

/-- The value threshold of the tracer (`const THRESHOLD: u64 = 10_000_000`). -/
def THRESHOLD : Nat := 10000000

/-- The receipt variants the classifier inspects (`fuel_tx::Receipt`).
`transfer` carries its destination contract, `transferOut` its destination
address; the classifier matches only `amount` and `asset_id` of either.
`messageOut`'s `data` is optional in the client type; the source calls
`data.unwrap()` on it. -/
inductive Receipt where
  | transfer (dest : Nat) (amount : Amount) (asset_id : AssetId)
  | transferOut (dest : Address) (amount : Amount) (asset_id : AssetId)
  | messageOut (sender recipient nonce : Nat) (amount : Amount) (data : Option Nat)
  | otherReceipt
  deriving DecidableEq

/-- Transaction inputs (`fuel_tx::Input`): the classifier matches
`CoinSigned` and `CoinPredicate` on `utxo_id` and `owner`. -/
inductive Input where
  | coinSigned (utxo_id : UtxoId) (owner : Address)
  | coinPredicate (utxo_id : UtxoId) (owner : Address)
  | otherInput
  deriving DecidableEq

/-- Transaction outputs (`fuel_tx::Output`): `Coin`, `Change` and
`Variable` carry a destination, an amount and an asset. -/
inductive Output where
  | coin (dest : Address) (amount : Amount) (asset_id : AssetId)
  | change (dest : Address) (amount : Amount) (asset_id : AssetId)
  | varOutput (dest : Address) (amount : Amount) (asset_id : AssetId)
  | otherOutput
  deriving DecidableEq

/-- A transaction: inputs and outputs (the `LookingFor` accessors), plus
its content-derived id.  In the source the id is computed by
`tx.id(&chain_id)`, an external collision-resistant hash; the embedding
carries it as a field. -/
structure Transaction where
  txid : TxId
  inputs : List Input
  outputs : List Output
  deriving DecidableEq

/-- Execution status of a fetched transaction: the source reads the
receipts out of `Success` and `Failure` and hits `unreachable!` on any
other status. -/
inductive TxStatus where
  | success (receipts : List Receipt)
  | failure (receipts : List Receipt)
  | otherStatus
  deriving DecidableEq

/-- One element of a `transactions_by_owner` page
(`TransactionResponse`). -/
structure TransactionResponse where
  transaction : Transaction
  status : TxStatus
  deriving DecidableEq

/-- Association-list lookup, the embedding of `HashMap` lookups: the most
recently inserted binding for a key wins, as a `HashMap` insert
overwrites. -/
def lookupL {α β : Type} [DecidableEq α] : List (α × β) → α → Option β
  | [], _ => none
  | (k, v) :: rest, a => if k = a then some v else lookupL rest a

/-- The tracer's working state (`struct Stat`).  `HashMap` / `HashSet`
fields become association lists / lists (inserts prepend, so `lookupL`
sees the newest binding first); `VecDeque` queues become lists pushed at
the back and popped at the front. -/
structure Stat where
  utxo_ids : List (UtxoId × TxId)
  txs : List (TxId × Transaction)
  addresses_to_check : List Address
  checked_addresses : List Address
  utxo_id_to_check : List UtxoId
  checked_utxo_id : List (UtxoId × Amount)
  message_id : List MessageId
  deriving DecidableEq

/-- `Stat::check_address`: enqueue an owner for inspection unless it was
ever enqueued before. -/
def Stat.check_address (s : Stat) (owner : Address) : Stat :=
  if owner ∈ s.checked_addresses then s
  else { s with addresses_to_check := s.addresses_to_check ++ [owner],
                checked_addresses := owner :: s.checked_addresses }

/-- `Stat::next_address`: pop the front of the address queue. -/
def Stat.next_address (s : Stat) : Option (Address × Stat) :=
  match s.addresses_to_check with
  | [] => none
  | a :: rest => some (a, { s with addresses_to_check := rest })

/-- `Stat::check_utxo`: track an output reference with its amount unless
it was ever tracked before. -/
def Stat.check_utxo (s : Stat) (utxo_id : UtxoId) (amount : Amount) : Stat :=
  if (lookupL s.checked_utxo_id utxo_id).isSome then s
  else { s with utxo_id_to_check := s.utxo_id_to_check ++ [utxo_id],
                checked_utxo_id := (utxo_id, amount) :: s.checked_utxo_id }

/-- `Stat::next_utxo_id`: pop the front of the output-reference queue. -/
def Stat.next_utxo_id (s : Stat) : Option (UtxoId × Stat) :=
  match s.utxo_id_to_check with
  | [] => none
  | u :: rest => some (u, { s with utxo_id_to_check := rest })

/-- `Stat::register_tx`: cache a transaction under its content-derived id
and return the id. -/
def Stat.register_tx (s : Stat) (tx : Transaction) : TxId × Stat :=
  (tx.txid, { s with txs := (tx.txid, tx) :: s.txs })

/-- `Stat::spent_utxo`: record which transaction spends an output. -/
def Stat.spent_utxo (s : Stat) (utxo_id : UtxoId) (tx_id : TxId) : Stat :=
  { s with utxo_ids := (utxo_id, tx_id) :: s.utxo_ids }

/-- The type of the external message-id hash
`Input::compute_message_id(sender, recipient, nonce, amount, data)`. -/
abbrev ComputeMessageId := Nat → Nat → Nat → Amount → Nat → MessageId

/-- The receipt arm of the classification loop in `analyze_transactions`
(src/lib.rs, lines 293-345).  `Transfer` and `TransferOut` receipts only
print when above threshold and in the base asset; `MessageOut` receipts
above threshold push the computed message id, calling `data.unwrap()`
(modelled as `none` on absent data); all other receipts are skipped. -/
def processReceipt (cmid : ComputeMessageId) (base_asset_id : AssetId)
    (s : Stat) : Receipt → Option Stat
  | .transfer _ amount asset_id =>
    if amount ≤ THRESHOLD then some s
    else if asset_id ≠ base_asset_id then some s
    else some s
  | .transferOut _ amount asset_id =>
    if amount ≤ THRESHOLD then some s
    else if asset_id ≠ base_asset_id then some s
    else some s
  | .messageOut sender recipient nonce amount data =>
    if amount ≤ THRESHOLD then some s
    else
      match data with
      | none => none
      | some d =>
        some { s with message_id := s.message_id ++ [cmid sender recipient nonce amount d] }
  | .otherReceipt => some s

/-- Fold of `processReceipt` over a transaction's receipts. -/
def processReceipts (cmid : ComputeMessageId) (base_asset_id : AssetId) :
    Stat → List Receipt → Option Stat
  | s, [] => some s
  | s, r :: rs =>
    match processReceipt cmid base_asset_id s r with
    | none => none
    | some s' => processReceipts cmid base_asset_id s' rs

/-- The input arm of the classification loop (src/lib.rs, lines 347-358):
coin inputs record the spend and seed the owner; all other inputs are
ignored. -/
def processInput (tx_id : TxId) (s : Stat) : Input → Stat
  | .coinSigned utxo_id owner => (s.spent_utxo utxo_id tx_id).check_address owner
  | .coinPredicate utxo_id owner => (s.spent_utxo utxo_id tx_id).check_address owner
  | .otherInput => s

/-- Fold of `processInput` over a transaction's inputs. -/
def processInputs (tx_id : TxId) (s : Stat) (ins : List Input) : Stat :=
  ins.foldl (processInput tx_id) s

/-- One iteration of the response loop of `analyze_transactions`: register
the transaction, read the receipts out of the status (`unreachable!` on
other statuses), classify the receipts, then the inputs. -/
def analyzeResponse (cmid : ComputeMessageId) (base_asset_id : AssetId)
    (s : Stat) (resp : TransactionResponse) : Option Stat :=
  match s.register_tx resp.transaction with
  | (tx_id, s1) =>
    match resp.status with
    | .success receipts =>
      match processReceipts cmid base_asset_id s1 receipts with
      | none => none
      | some s2 => some (processInputs tx_id s2 resp.transaction.inputs)
    | .failure receipts =>
      match processReceipts cmid base_asset_id s1 receipts with
      | none => none
      | some s2 => some (processInputs tx_id s2 resp.transaction.inputs)
    | .otherStatus => none

/-- `analyze_transactions(base_asset_id, txs, stat)` (src/lib.rs, lines
277-360). -/
def analyze_transactions (cmid : ComputeMessageId) (base_asset_id : AssetId) :
    List TransactionResponse → Stat → Option Stat
  | [], s => some s
  | resp :: rest, s =>
    match analyzeResponse cmid base_asset_id s resp with
    | none => none
    | some s' => analyze_transactions cmid base_asset_id rest s'

/-! ## The paginated chain data source -/

/-- `PageDirection` of a pagination request. -/
inductive PageDirection where
  | forward
  | backward
  deriving DecidableEq

/-- One page of `transactions_by_owner` results (`PaginatedResult`):
the results, the follow-up cursor and whether a further page exists.
Cursors are opaque strings in the source, modelled as `Nat`. -/
structure Page where
  results : List TransactionResponse
  cursor : Option Nat
  has_next_page : Bool
  deriving DecidableEq

/-- The external chain data source: owner, cursor, requested page size and
direction give one page, or `none` when the fetch fails. -/
abbrev DataSource := Address → Option Nat → Nat → PageDirection → Option Page

/-- The fetch the tracer actually performs per owner (src/lib.rs, lines
388-398): a single request with `cursor: None`, `results: 100_000_000`,
forward direction, keeping only that page's `results`. -/
def fetchOwnerTransactions (ds : DataSource) (owner : Address) :
    Option (List TransactionResponse) :=
  (ds owner none 100000000 .forward).map Page.results

/-- Follows the spec's words, for comparison with `fetchOwnerTransactions`:
issue a call with `cursor = None`, then follow-up calls with the returned
cursor, until a page reports no further results, accumulating all pages.
`fuel` bounds the number of pages visited. -/
def specFetchAllPages (ds : DataSource) (owner : Address) (size : Nat) :
    Nat → Option Nat → Option (List TransactionResponse)
  | 0, _ => none
  | fuel + 1, cursor =>
    match ds owner cursor size .forward with
    | none => none
    | some page =>
      if page.has_next_page then
        match specFetchAllPages ds owner size fuel page.cursor with
        | none => none
        | some rest => some (page.results ++ rest)
      else some page.results

/-! ## The run loop of `find_addresses` -/

/-- How a run can fail: a fetch the data source refused (`.expect` on the
`transactions_by_owner` result), a panic inside classification
(`unreachable!` on an unexpected status, `data.unwrap()` on an absent
payload, or the transaction-cache `.expect`), or exhaustion of the
step budget of the embedding. -/
inductive RunError where
  | dataSourceError
  | analysisFailure
  | outOfFuel
  deriving DecidableEq

/-- The inner loop of `find_addresses` (lines 387-401): drain the address
queue, fetching and classifying each owner's transactions.  One unit of
fuel is spent per popped address. -/
def drainAddresses (ds : DataSource) (cmid : ComputeMessageId)
    (base_asset_id : AssetId) : Nat → Stat → Except RunError Stat
  | 0, s =>
    match s.next_address with
    | none => .ok s
    | some _ => .error .outOfFuel
  | fuel + 1, s =>
    match s.next_address with
    | none => .ok s
    | some (owner, s1) =>
      match fetchOwnerTransactions ds owner with
      | none => .error .dataSourceError
      | some txs =>
        match analyze_transactions cmid base_asset_id txs s1 with
        | none => .error .analysisFailure
        | some s2 => drainAddresses ds cmid base_asset_id fuel s2

/-- The output arm of the outer loop (lines 413-445): a `Coin`, `Change`
or `Variable` output above threshold and in the base asset seeds its
destination address and its output reference (index reduced to `u8`);
everything else is dropped.  The first component of the argument pair is
the enumeration index. -/
def processOutput (base_asset_id : AssetId) (tx_id : TxId) (s : Stat)
    (io : Nat × Output) : Stat :=
  match io.2 with
  | .coin dest amount asset_id =>
    if amount ≤ THRESHOLD then s
    else if asset_id ≠ base_asset_id then s
    else (s.check_address dest).check_utxo (tx_id, io.1 % 256) amount
  | .change dest amount asset_id =>
    if amount ≤ THRESHOLD then s
    else if asset_id ≠ base_asset_id then s
    else (s.check_address dest).check_utxo (tx_id, io.1 % 256) amount
  | .varOutput dest amount asset_id =>
    if amount ≤ THRESHOLD then s
    else if asset_id ≠ base_asset_id then s
    else (s.check_address dest).check_utxo (tx_id, io.1 % 256) amount
  | .otherOutput => s

/-- Fold of `processOutput` over the enumerated outputs of the spending
transaction. -/
def processOutputs (base_asset_id : AssetId) (tx_id : TxId) (s : Stat)
    (outs : List Output) : Stat :=
  outs.enum.foldl (processOutput base_asset_id tx_id) s

/-- Disposition check of one dequeued output reference (lines 403-448):
if a spend was recorded, look the spending transaction up in the cache
(`.expect`, modelled as `none` on a miss) and classify its outputs;
otherwise append the reference to the unspent list. -/
def processUtxo (base_asset_id : AssetId) (s : Stat) (utxo_id : UtxoId)
    (unspent : List UtxoId) : Option (Stat × List UtxoId) :=
  match lookupL s.utxo_ids utxo_id with
  | some tx_id =>
    match lookupL s.txs tx_id with
    | some tx => some (processOutputs base_asset_id tx_id s tx.outputs, unspent)
    | none => none
  | none => some (s, unspent ++ [utxo_id])

/-- The outer loop of `find_addresses` (lines 386-449): pop an output
reference, drain the whole current address frontier with the remaining
fuel as its budget, then settle the popped reference's disposition.  One
unit of fuel is spent per popped reference. -/
def runLoop (ds : DataSource) (cmid : ComputeMessageId) (base_asset_id : AssetId) :
    Nat → Stat → List UtxoId → Except RunError (Stat × List UtxoId)
  | 0, s, unspent =>
    match s.next_utxo_id with
    | none => .ok (s, unspent)
    | some _ => .error .outOfFuel
  | fuel + 1, s, unspent =>
    match s.next_utxo_id with
    | none => .ok (s, unspent)
    | some (utxo_id, s1) =>
      match drainAddresses ds cmid base_asset_id fuel s1 with
      | .error e => .error e
      | .ok s2 =>
        match processUtxo base_asset_id s2 utxo_id unspent with
        | none => .error .analysisFailure
        | some (s3, unspent') => runLoop ds cmid base_asset_id fuel s3 unspent' 

/-- The final report construction (lines 451-457): pair every unspent
reference with its tracked amount (`checked_utxo_id.get(..).unwrap()`,
modelled as `none` on a miss). -/
def mkReport (s : Stat) : List UtxoId → Option (List (UtxoId × Amount))
  | [] => some []
  | u :: us =>
    match lookupL s.checked_utxo_id u with
    | none => none
    | some amt => (mkReport s us).map (fun rest => (u, amt) :: rest)

/-- The owner addresses a transaction input makes the tracer seed. -/
def inputOwners : Input → List Address
  | .coinSigned _ o => [o]
  | .coinPredicate _ o => [o]
  | .otherInput => []

/-- The destination addresses an output makes the tracer seed: the
destination of a `Coin`, `Change` or `Variable` output above the
threshold and in the base asset, nothing otherwise. -/
def bigBaseDests (base_asset_id : AssetId) : Output → List Address
  | .coin dest amount asset_id =>
    if amount ≤ THRESHOLD then []
    else if asset_id ≠ base_asset_id then []
    else [dest]
  | .change dest amount asset_id =>
    if amount ≤ THRESHOLD then []
    else if asset_id ≠ base_asset_id then []
    else [dest]
  | .varOutput dest amount asset_id =>
    if amount ≤ THRESHOLD then []
    else if asset_id ≠ base_asset_id then []
    else [dest]
  | .otherOutput => []

/-- A receipt the classifier can process without a panic: a `MessageOut`
above the threshold must carry its data. -/
def goodReceipt : Receipt → Prop
  | .messageOut _ _ _ amount data => THRESHOLD < amount → data ≠ none
  | _ => True

/-- A response the classifier can process without a panic: an executed
status whose receipts are all processable. -/
def GoodResponse (r : TransactionResponse) : Prop :=
  match r.status with
  | .success rs => ∀ x ∈ rs, goodReceipt x
  | .failure rs => ∀ x ∈ rs, goodReceipt x
  | .otherStatus => False

/-- A transaction that appears in some page of the data source. -/
def IsFetched (ds : DataSource) (tx : Transaction) : Prop :=
  ∃ owner txs, fetchOwnerTransactions ds owner = some txs ∧
    ∃ r ∈ txs, r.transaction = tx

/-- All seedable destinations of a transaction's outputs are already
checked. -/
def BigDestsChecked (base_asset_id : AssetId) (tx : Transaction) (s : Stat) : Prop :=
  ∀ io ∈ tx.outputs.enum, ∀ d ∈ bigBaseDests base_asset_id io.2,
    d ∈ s.checked_addresses

/-- The address-side progress measure: unreached addresses of the finite
universe `A` plus the pending address queue. -/
def addrMeasure (A : Finset Address) (s : Stat) : Nat :=
  (A.filter (fun a => a ∉ s.checked_addresses)).card + s.addresses_to_check.length

/-- The output-side progress measure: untracked references of the finite
universe `U` plus the pending output-reference queue. -/
def utxoMeasure (U : Finset UtxoId) (s : Stat) : Nat :=
  (U.filter (fun u => ¬ (lookupL s.checked_utxo_id u).isSome)).card +
    s.utxo_id_to_check.length

/-- A well-formed finite chain-data graph over the universes `A` and `U`
relative to the seed-tracked map `S0`: every fetch succeeds and is
classifiable, every owner or seedable destination it mentions lies in
`A`, every derivable output reference lies in `U`, fetched transaction
ids collide neither with the seeds nor with each other (ids are
content-derived). -/
def GoodDs (ds : DataSource) (base_asset_id : AssetId) (A : Finset Address)
    (U : Finset UtxoId) (S0 : List (UtxoId × Amount)) : Prop :=
  (∀ owner, ∃ txs, fetchOwnerTransactions ds owner = some txs) ∧
  (∀ owner txs, fetchOwnerTransactions ds owner = some txs →
    ∀ r ∈ txs, GoodResponse r) ∧
  (∀ owner txs, fetchOwnerTransactions ds owner = some txs →
    ∀ r ∈ txs, ∀ i ∈ r.transaction.inputs, ∀ a ∈ inputOwners i, a ∈ A) ∧
  (∀ tx, IsFetched ds tx → ∀ io ∈ tx.outputs.enum,
    ∀ d ∈ bigBaseDests base_asset_id io.2, d ∈ A) ∧
  (∀ tx, IsFetched ds tx → ∀ i, i < tx.outputs.length → (tx.txid, i % 256) ∈ U) ∧
  (∀ tx, IsFetched ds tx → ∀ j, lookupL S0 (tx.txid, j) = none) ∧
  (∀ tx1 tx2, IsFetched ds tx1 → IsFetched ds tx2 → tx1.txid = tx2.txid → tx1 = tx2)

/-- The run invariant of the outer loop over the universes `A` and `U`:
queues are duplicate-free and covered by their dedup sets, the dedup sets
stay inside the universes, recorded spends point into the transaction
cache, the cache holds fetched transactions under their own ids, every
tracked reference is either an original seed or derived from a fetched
transaction whose seedable destinations are all checked, and an empty
output queue forces an empty address queue. -/
def RunInv (ds : DataSource) (base_asset_id : AssetId) (A : Finset Address)
    (U : Finset UtxoId) (S0 : List (UtxoId × Amount)) (s : Stat) : Prop :=
  s.addresses_to_check.Nodup ∧
  (∀ a ∈ s.addresses_to_check, a ∈ s.checked_addresses) ∧
  (∀ a ∈ s.checked_addresses, a ∈ A) ∧
  s.utxo_id_to_check.Nodup ∧
  (∀ u ∈ s.utxo_id_to_check, (lookupL s.checked_utxo_id u).isSome) ∧
  (∀ u, (lookupL s.checked_utxo_id u).isSome → u ∈ U) ∧
  (∀ u t, lookupL s.utxo_ids u = some t → (lookupL s.txs t).isSome) ∧
  (∀ t tx, lookupL s.txs t = some tx → IsFetched ds tx ∧ tx.txid = t) ∧
  (∀ u, (lookupL s.checked_utxo_id u).isSome → (lookupL S0 u).isSome ∨
    ∃ tx, IsFetched ds tx ∧ tx.txid = u.1 ∧ BigDestsChecked base_asset_id tx s) ∧
  (s.utxo_id_to_check = [] → s.addresses_to_check = [])

/-- Evolution of the working state across address classification
(`analyze_transactions` and the inner drain): the output-side queue and
the tracked-amount map are untouched, and recorded spends persist. -/
def OutputSideExt (s s' : Stat) : Prop :=
  s'.utxo_id_to_check = s.utxo_id_to_check ∧
  s'.checked_utxo_id = s.checked_utxo_id ∧
  ∀ u, (lookupL s.utxo_ids u).isSome → (lookupL s'.utxo_ids u).isSome

/-- Evolution of the working state across output-side seeding
(`processOutputs`): the spend map, transaction cache and message list are
untouched; tracked references and checked addresses persist; both queues
only grow at the back, every newly queued reference is tracked, and every
newly tracked reference sits in the queue. -/
def SeedExt (s s' : Stat) : Prop :=
  s'.utxo_ids = s.utxo_ids ∧
  s'.txs = s.txs ∧
  s'.message_id = s.message_id ∧
  (∀ x, (lookupL s.checked_utxo_id x).isSome →
    (lookupL s'.checked_utxo_id x).isSome) ∧
  (∀ a, a ∈ s.checked_addresses → a ∈ s'.checked_addresses) ∧
  (∃ l, s'.utxo_id_to_check = s.utxo_id_to_check ++ l ∧
    ∀ x ∈ l, (lookupL s'.checked_utxo_id x).isSome) ∧
  (∃ l, s'.addresses_to_check = s.addresses_to_check ++ l) ∧
  (∀ x, (lookupL s'.checked_utxo_id x).isSome →
    (lookupL s.checked_utxo_id x).isSome ∨ x ∈ s'.utxo_id_to_check)

/-! ## The block producer and the signature recovery resolver -/

/-- The consensus variants of a block (`Consensus`): genesis with its
payload, PoA with its signature, or unknown. -/
inductive Consensus where
  | genesis (g : Nat)
  | poaConsensus (signature : Signature)
  | unknown
  deriving DecidableEq

/-- A full block, as far as `block_producer` reads it: the header's block
id and the consensus variant. -/
structure FullBlock where
  header_id : Nat
  consensus : Consensus
  deriving DecidableEq

/-- The `Default::default()` public key returned for genesis blocks. -/
def defaultPublicKey : PublicKey := 0

/-- `FullBlock::block_producer` (src/lib.rs, lines 70-84).  The external
conversions are parameters of the embedding: `into_message` models
`BlockId::into_message` and `recover` models `Signature::recover`, which
can fail; `.ok()` on its result becomes `Except.toOption`. -/
def FullBlock.block_producer (into_message : Nat → Message)
    (recover : Signature → Message → Except Unit PublicKey)
    (b : FullBlock) : Option PublicKey :=
  match b.consensus with
  | .genesis _ => some defaultPublicKey
  | .poaConsensus sig => (recover sig (into_message b.header_id)).toOption
  | .unknown => none

/-- Failure of the signature-recovery resolver: neither recovery candidate
matched the expected key. -/
inductive RecoveryError where
  | ambiguousRecoveryFailure
  deriving DecidableEq

/-- Modelled from the spec: the `resolve(message, signature,
expected_public_key)` operation of the Signature Recovery Resolver (spec
section 4.2) has no implementation under src/ — the repository only ships
its caller-side analogue `block_producer`, which delegates to the external
`Signature::recover`.  Following the spec's words: attempt recovery under
recovery flag `false` and under flag `true`, return the flag whose
recovered candidate equals `expected_public_key`, and fail with
`AmbiguousRecoveryFailure` when neither candidate matches.
`recoverWithFlag` is the external per-flag recovery primitive. -/
def resolve (recoverWithFlag : Bool → Message → Signature → PublicKey)
    (message : Message) (signature : Signature)
    (expected_public_key : PublicKey) : Except RecoveryError Bool :=
  if recoverWithFlag false message signature = expected_public_key then .ok false
  else if recoverWithFlag true message signature = expected_public_key then .ok true
  else .error .ambiguousRecoveryFailure

/-! ## Concrete fixtures

Small closed instances used by counterexamples and by the witnesses that
instantiate the hypotheses of the claim theorems. -/

/-- The state with nothing tracked, nothing queued, nothing cached. -/
def emptyStat : Stat :=
  { utxo_ids := [], txs := [], addresses_to_check := [], checked_addresses := [],
    utxo_id_to_check := [], checked_utxo_id := [], message_id := [] }

/-- A concrete stand-in for the external message-id hash. -/
def cmid0 : ComputeMessageId := fun sender recipient nonce amount d =>
  sender + recipient + nonce + amount + d

/-- A first fetched transaction with no inputs, outputs or receipts. -/
def respX : TransactionResponse :=
  { transaction := { txid := 11, inputs := [], outputs := [] }, status := .success [] }

/-- A second fetched transaction with no inputs, outputs or receipts. -/
def respY : TransactionResponse :=
  { transaction := { txid := 12, inputs := [], outputs := [] }, status := .success [] }

/-- A data source whose history for every owner spans two pages: the first
page returns `respX` and reports a further page at cursor 1; the page at
cursor 1 returns `respY` and is final. -/
def dsTwoPages : DataSource := fun _ cursor _ _ =>
  match cursor with
  | none => some { results := [respX], cursor := some 1, has_next_page := true }
  | some 1 => some { results := [respY], cursor := none, has_next_page := false }
  | some _ => none

/-- A data source whose history for every owner is the single final page
`[respX]`. -/
def dsOnePage : DataSource := fun _ cursor _ _ =>
  match cursor with
  | none => some { results := [respX], cursor := none, has_next_page := false }
  | some _ => none

/-- A data source for which every fetch fails. -/
def dsFail : DataSource := fun _ _ _ _ => none

/-- A data source whose every page is empty and final. -/
def dsEmpty : DataSource := fun _ _ _ _ =>
  some { results := [], cursor := none, has_next_page := false }

/-- Transaction 101: spends seed output (0, 2) owned by address 1 and
creates output (101, 0): 2 × threshold in the base asset to address 2. -/
def respSpendSeed2 : TransactionResponse :=
  { transaction :=
      { txid := 101, inputs := [.coinSigned (0, 2) 1],
        outputs := [.coin 2 20000000 0] },
    status := .success [] }

/-- Transaction 102: found only in address 2's history, it spends seed
output (0, 1), which the tracer has classified as unspent by the time
address 2 is explored. -/
def respSpendSeed1 : TransactionResponse :=
  { transaction := { txid := 102, inputs := [.coinSigned (0, 1) 2], outputs := [] },
    status := .success [] }

/-- The late-spend chain-data graph: address 1's history is transaction
101, address 2's history is transaction 102, everyone else's history is
empty; every page is final. -/
def dsLateSpend : DataSource := fun owner _ _ _ =>
  if owner = 1 then some { results := [respSpendSeed2], cursor := none, has_next_page := false }
  else if owner = 2 then some { results := [respSpendSeed1], cursor := none, has_next_page := false }
  else some { results := [], cursor := none, has_next_page := false }

/-- The seed state of the late-spend graph: two seed outputs of 2 ×
threshold each, (0, 1) and (0, 2), and seed address 1, seeded in the
order of the `find_addresses` seeding loop. -/
def statLateSpend : Stat :=
  (((emptyStat.check_utxo (0, 1) 20000000).check_address 1).check_utxo
      (0, 2) 20000000).check_address 1

/-- A seed state with one seed output and one seed address. -/
def statOneSeed : Stat :=
  (emptyStat.check_utxo (0, 1) 20000000).check_address 7

/-! ## Claims about the resolver and the block producer -/

/-- C1: for every (message, signature, expected key) input, `resolve`
attempts recovery under flag `false` and flag `true`; a returned flag's
candidate equals the expected key, a matching candidate yields a returned
flag, and when neither candidate matches it fails with
`AmbiguousRecoveryFailure`. -/
theorem claim_C1 (recoverWithFlag : Bool → Message → Signature → PublicKey)
    (message : Message) (signature : Signature) (pk : PublicKey) :
    (∀ flag, resolve recoverWithFlag message signature pk = .ok flag →
      recoverWithFlag flag message signature = pk) ∧
    ((∃ flag, recoverWithFlag flag message signature = pk) →
      ∃ flag, resolve recoverWithFlag message signature pk = .ok flag ∧
        recoverWithFlag flag message signature = pk) ∧
    (recoverWithFlag false message signature ≠ pk →
      recoverWithFlag true message signature ≠ pk →
      resolve recoverWithFlag message signature pk =
        .error .ambiguousRecoveryFailure) := by
  unfold resolve
  refine ⟨?_, ?_, ?_⟩
  · intro flag h
    split_ifs at h with h1 h2
    · injection h with h'
      subst h'
      exact h1
    · injection h with h'
      subst h'
      exact h2
  · rintro ⟨flag, hf⟩
    by_cases h1 : recoverWithFlag false message signature = pk
    · exact ⟨false, by rw [if_pos h1], h1⟩
    · have h2 : recoverWithFlag true message signature = pk := by
        cases flag
        · exact absurd hf h1
        · exact hf
      exact ⟨true, by rw [if_neg h1, if_pos h2], h2⟩
  · intro h1 h2
    rw [if_neg h1, if_neg h2]

/-- Witness for C1: with both candidates distinct from the expected key,
`resolve` fails with `AmbiguousRecoveryFailure`. -/
theorem claim_C1_witness :
    resolve (fun flag _ _ => if flag then 3 else 4) 0 0 5 =
      .error .ambiguousRecoveryFailure :=
  (claim_C1 (fun flag _ _ => if flag then 3 else 4) 0 0 5).2.2 (by decide) (by decide)

/-- C10: `block_producer` is total over the three consensus variants: a
genesis block yields the default public key, an unknown consensus yields
`none`, and a PoA block yields the single key recovered from the
signature over the header-id message, or `none` when recovery errors. -/
theorem claim_C10 (into_message : Nat → Message)
    (recover : Signature → Message → Except Unit PublicKey)
    (hid g : Nat) (sig : Signature) :
    FullBlock.block_producer into_message recover
        { header_id := hid, consensus := .genesis g } = some defaultPublicKey ∧
    FullBlock.block_producer into_message recover
        { header_id := hid, consensus := .unknown } = none ∧
    FullBlock.block_producer into_message recover
        { header_id := hid, consensus := .poaConsensus sig } =
      (recover sig (into_message hid)).toOption ∧
    (∀ pk, recover sig (into_message hid) = .ok pk →
      FullBlock.block_producer into_message recover
          { header_id := hid, consensus := .poaConsensus sig } = some pk) ∧
    (∀ e, recover sig (into_message hid) = .error e →
      FullBlock.block_producer into_message recover
          { header_id := hid, consensus := .poaConsensus sig } = none) := by
  refine ⟨rfl, rfl, rfl, ?_, ?_⟩
  · intro pk h
    simp [FullBlock.block_producer, h, Except.toOption]
  · intro e h
    simp [FullBlock.block_producer, h, Except.toOption]

/-- Witness for C10: a PoA block whose recovery returns key 9 has block
producer 9. -/
theorem claim_C10_witness :
    FullBlock.block_producer (fun n => n) (fun _ _ => .ok 9)
        { header_id := 0, consensus := .poaConsensus 4 } = some 9 :=
  (claim_C10 (fun n => n) (fun _ _ => .ok 9) 0 0 4).2.2.2.1 9 rfl

/-! ## Claims about seeding -/

/-- C3: seeding is idempotent — calling `check_address` or `check_utxo`
twice with the same value leaves the state exactly as one call does. -/
theorem claim_C3 (s : Stat) (owner : Address) (utxo_id : UtxoId) (amount : Amount) :
    (s.check_address owner).check_address owner = s.check_address owner ∧
    (s.check_utxo utxo_id amount).check_utxo utxo_id amount =
      s.check_utxo utxo_id amount := by
  constructor
  · by_cases h : owner ∈ s.checked_addresses
    · simp [Stat.check_address, h]
    · simp [Stat.check_address, h]
  · by_cases h : (lookupL s.checked_utxo_id utxo_id).isSome
    · simp [Stat.check_utxo, h]
    · simp [Stat.check_utxo, h, lookupL]

/-- C9: seeding an output reference that is already tracked leaves the
state unchanged even under a different amount, and the recorded amount
stays the first one seeded. -/
theorem claim_C9 (s : Stat) (utxo_id : UtxoId) (a b : Amount)
    (h : lookupL s.checked_utxo_id utxo_id = some a) :
    s.check_utxo utxo_id b = s ∧
    lookupL (s.check_utxo utxo_id b).checked_utxo_id utxo_id = some a := by
  have hs : (lookupL s.checked_utxo_id utxo_id).isSome = true := by rw [h]; rfl
  refine ⟨?_, ?_⟩
  · rw [Stat.check_utxo, if_pos hs]
  · rw [Stat.check_utxo, if_pos hs]
    exact h

/-- Witness for C9: re-seeding the already tracked seed output with
amount 5 changes nothing; the tracked amount stays the original. -/
theorem claim_C9_witness :
    statOneSeed.check_utxo (0, 1) 5 = statOneSeed ∧
    lookupL (statOneSeed.check_utxo (0, 1) 5).checked_utxo_id (0, 1) =
      some 20000000 :=
  claim_C9 statOneSeed (0, 1) 20000000 5 (by decide)

/-! ## Claims about receipt classification -/

/-- C4 counterexample: a `Transfer` (and a `TransferOut`) receipt above
the threshold and in the base asset leaves the state untouched — in
particular nothing is seeded, although the claim asserts the destination
output is seeded on this path.  The state has empty queues before and
after. -/
theorem claim_C4_counterexample :
    processReceipt cmid0 0 emptyStat (.transfer 7 10000001 0) = some emptyStat ∧
    processReceipt cmid0 0 emptyStat (.transferOut 7 10000001 0) = some emptyStat ∧
    emptyStat.utxo_id_to_check = [] ∧ emptyStat.addresses_to_check = [] ∧
    THRESHOLD < 10000001 := by decide

/-- C4 as amended: a `Transfer` or `TransferOut` receipt never seeds any
address or output, whatever its amount and asset; above-threshold
matching receipts are only surfaced (printed). -/
theorem claim_C4 (cmid : ComputeMessageId) (base_asset_id : AssetId) (s : Stat)
    (dest : Nat) (amount : Amount) (asset_id : AssetId) :
    processReceipt cmid base_asset_id s (.transfer dest amount asset_id) = some s ∧
    processReceipt cmid base_asset_id s (.transferOut dest amount asset_id) =
      some s := by
  constructor
  · simp only [processReceipt]
    split_ifs <;> rfl
  · simp only [processReceipt]
    split_ifs <;> rfl

/-- C5 counterexample: a `MessageOut` receipt above the threshold whose
`data` field is absent makes the classifier fail (`data.unwrap()`), so no
message identifier is appended. -/
theorem claim_C5_counterexample :
    processReceipt cmid0 0 emptyStat (.messageOut 1 2 3 10000001 none) = none ∧
    THRESHOLD < 10000001 := by decide

/-- C5 as amended: a `MessageOut` receipt above the threshold whose data
is present appends the message identifier computed by the external hash
over (sender, recipient, nonce, amount, data), regardless of any asset;
at or below the threshold nothing is appended; above the threshold with
absent data the classifier fails. -/
theorem claim_C5 (cmid : ComputeMessageId) (base_asset_id : AssetId) (s : Stat)
    (sender recipient nonce : Nat) (amount : Amount) (data : Option Nat) :
    (∀ d, THRESHOLD < amount → data = some d →
      processReceipt cmid base_asset_id s
          (.messageOut sender recipient nonce amount data) =
        some { s with
          message_id := s.message_id ++ [cmid sender recipient nonce amount d] }) ∧
    (amount ≤ THRESHOLD →
      processReceipt cmid base_asset_id s
          (.messageOut sender recipient nonce amount data) = some s) ∧
    (THRESHOLD < amount → data = none →
      processReceipt cmid base_asset_id s
          (.messageOut sender recipient nonce amount data) = none) := by
  refine ⟨?_, ?_, ?_⟩
  · intro d hlt hdata
    subst hdata
    have hn : ¬ amount ≤ THRESHOLD := Nat.not_le.mpr hlt
    simp only [processReceipt]
    rw [if_neg hn]
  · intro hle
    simp only [processReceipt]
    rw [if_pos hle]
  · intro hlt hdata
    subst hdata
    have hn : ¬ amount ≤ THRESHOLD := Nat.not_le.mpr hlt
    simp only [processReceipt]
    rw [if_neg hn]

/-- Witness for C5: a concrete above-threshold `MessageOut` with data 9
appends the computed identifier. -/
theorem claim_C5_witness :
    processReceipt cmid0 0 emptyStat (.messageOut 1 2 3 10000001 (some 9)) =
      some { emptyStat with message_id := [cmid0 1 2 3 10000001 9] } :=
  (claim_C5 cmid0 0 emptyStat 1 2 3 10000001 (some 9)).1 9 (by decide) rfl

/-! ## Queue-pop helper facts -/

/-- Popping a non-empty address queue yields its head and tail. -/
theorem next_address_cons {s : Stat} {a : Address} {qa : List Address}
    (h : s.addresses_to_check = a :: qa) :
    s.next_address = some (a, { s with addresses_to_check := qa }) := by
  unfold Stat.next_address
  rw [h]

/-- Popping an empty address queue yields nothing. -/
theorem next_address_nil {s : Stat} (h : s.addresses_to_check = []) :
    s.next_address = none := by
  unfold Stat.next_address
  rw [h]

/-- Popping a non-empty output-reference queue yields its head and tail. -/
theorem next_utxo_cons {s : Stat} {u : UtxoId} {qu : List UtxoId}
    (h : s.utxo_id_to_check = u :: qu) :
    s.next_utxo_id = some (u, { s with utxo_id_to_check := qu }) := by
  unfold Stat.next_utxo_id
  rw [h]

/-- Popping an empty output-reference queue yields nothing. -/
theorem next_utxo_nil {s : Stat} (h : s.utxo_id_to_check = []) :
    s.next_utxo_id = none := by
  unfold Stat.next_utxo_id
  rw [h]

/-! ## Claims about fetching and failure propagation -/

/-- C2 counterexample: on a two-page history the tracer's fetch issues a
single request (cursor `none`, page size 100,000,000) and keeps only the
first page, although that page reports a further page; accumulating pages
until exhaustion, as the claim describes, also returns the second page's
transaction. -/
theorem claim_C2_counterexample :
    fetchOwnerTransactions dsTwoPages 0 = some [respX] ∧
    specFetchAllPages dsTwoPages 0 100000000 3 none = some [respX, respY] ∧
    (dsTwoPages 0 none 100000000 .forward).map Page.has_next_page = some true := by
  decide

/-- C2 as amended: the tracer issues one single call per address, with
cursor `None` and the fixed page size 100,000,000, and classifies exactly
that first page's results; only when that page is final does the single
call coincide with accumulating all pages. -/
theorem claim_C2 (ds : DataSource) (owner : Address) (page : Page)
    (h1 : ds owner none 100000000 .forward = some page)
    (h2 : page.has_next_page = false) :
    fetchOwnerTransactions ds owner = some page.results ∧
    ∀ fuel, specFetchAllPages ds owner 100000000 (fuel + 1) none =
      fetchOwnerTransactions ds owner := by
  constructor
  · rw [fetchOwnerTransactions, h1]
    rfl
  · intro fuel
    unfold specFetchAllPages
    rw [h1, fetchOwnerTransactions, h1]
    dsimp only
    rw [h2]
    simp

/-- Witness for C2: on a single final page the fetch returns that page's
results. -/
theorem claim_C2_witness :
    fetchOwnerTransactions dsOnePage 0 = some [respX] :=
  (claim_C2 dsOnePage 0
    { results := [respX], cursor := none, has_next_page := false } rfl rfl).1

/-- C7: when the data source cannot satisfy the next fetch, the run fails
with the data-source error immediately: from any state with an output
reference pending and an address pending whose fetch fails, `runLoop`
returns `.error .dataSourceError`, so no report is produced. -/
theorem claim_C7 (ds : DataSource) (cmid : ComputeMessageId) (base : AssetId)
    (fuel : Nat) (s : Stat) (unspent : List UtxoId)
    (u : UtxoId) (qu : List UtxoId) (a : Address) (qa : List Address)
    (hu : s.utxo_id_to_check = u :: qu)
    (ha : s.addresses_to_check = a :: qa)
    (hds : fetchOwnerTransactions ds a = none) :
    runLoop ds cmid base (fuel + 2) s unspent = .error .dataSourceError := by
  have hstep : drainAddresses ds cmid base (fuel + 1)
      { s with utxo_id_to_check := qu } = .error .dataSourceError := by
    unfold drainAddresses
    rw [next_address_cons (show ({ s with utxo_id_to_check := qu} : Stat).addresses_to_check
      = a :: qa from ha)]
    dsimp only
    rw [hds]
  unfold runLoop
  rw [next_utxo_cons hu]
  dsimp only
  rw [hstep]

/-- Witness for C7: with the always-failing data source and the seeded
late-spend state, the run aborts with the data-source error. -/
theorem claim_C7_witness :
    runLoop dsFail cmid0 0 2 statLateSpend [] = .error .dataSourceError :=
  claim_C7 dsFail cmid0 0 0 statLateSpend [] (0, 1) [(0, 2)] 1 []
    (by decide) (by decide) rfl

/-! ## Association-list and state-operation facts -/

/-- A present binding stays present under a prepended binding. -/
theorem lookupL_cons_isSome {α β : Type} [DecidableEq α] (l : List (α × β))
    (k a : α) (v : β) (h : (lookupL l a).isSome) :
    (lookupL ((k, v) :: l) a).isSome := by
  by_cases hk : k = a <;> simp [lookupL, hk, h]

/-- The head binding of an association list is found. -/
theorem lookupL_cons_self {α β : Type} [DecidableEq α] (l : List (α × β))
    (k : α) (v : β) : lookupL ((k, v) :: l) k = some v := by
  simp [lookupL]

/-- A prepended binding for another key does not change a lookup. -/
theorem lookupL_cons_ne {α β : Type} [DecidableEq α] (l : List (α × β))
    (k a : α) (v : β) (h : k ≠ a) : lookupL ((k, v) :: l) a = lookupL l a := by
  simp [lookupL, h]

/-- An empty address queue is exactly a `none` pop. -/
theorem next_address_eq_none {s : Stat} (h : s.next_address = none) :
    s.addresses_to_check = [] := by
  unfold Stat.next_address at h
  rcases hq : s.addresses_to_check with _ | ⟨a, rest⟩
  · rfl
  · rw [hq] at h
    exact absurd h (by simp)

/-- An empty output-reference queue is exactly a `none` pop. -/
theorem next_utxo_eq_none {s : Stat} (h : s.next_utxo_id = none) :
    s.utxo_id_to_check = [] := by
  unfold Stat.next_utxo_id at h
  rcases hq : s.utxo_id_to_check with _ | ⟨u, rest⟩
  · rfl
  · rw [hq] at h
    exact absurd h (by simp)

/-- `check_address` touches only the two address fields. -/
theorem check_address_frame (s : Stat) (o : Address) :
    (s.check_address o).utxo_ids = s.utxo_ids ∧
    (s.check_address o).txs = s.txs ∧
    (s.check_address o).utxo_id_to_check = s.utxo_id_to_check ∧
    (s.check_address o).checked_utxo_id = s.checked_utxo_id ∧
    (s.check_address o).message_id = s.message_id := by
  unfold Stat.check_address
  split <;> exact ⟨rfl, rfl, rfl, rfl, rfl⟩

/-- Checked addresses persist under `check_address`. -/
theorem check_address_checked_mono (s : Stat) (o a : Address)
    (h : a ∈ s.checked_addresses) : a ∈ (s.check_address o).checked_addresses := by
  unfold Stat.check_address
  split
  · exact h
  · exact List.mem_cons_of_mem _ h

/-- The address queue only grows at the back under `check_address`. -/
theorem check_address_queue_ext (s : Stat) (o : Address) :
    ∃ l, (s.check_address o).addresses_to_check = s.addresses_to_check ++ l := by
  unfold Stat.check_address
  split
  · exact ⟨[], by simp⟩
  · exact ⟨[o], rfl⟩

/-- `check_utxo` touches only the two output-side fields. -/
theorem check_utxo_frame (s : Stat) (u : UtxoId) (amt : Amount) :
    (s.check_utxo u amt).utxo_ids = s.utxo_ids ∧
    (s.check_utxo u amt).txs = s.txs ∧
    (s.check_utxo u amt).addresses_to_check = s.addresses_to_check ∧
    (s.check_utxo u amt).checked_addresses = s.checked_addresses ∧
    (s.check_utxo u amt).message_id = s.message_id := by
  unfold Stat.check_utxo
  split <;> exact ⟨rfl, rfl, rfl, rfl, rfl⟩

/-- Tracked references persist under `check_utxo`. -/
theorem check_utxo_tracked_mono (s : Stat) (u x : UtxoId) (amt : Amount)
    (h : (lookupL s.checked_utxo_id x).isSome) :
    (lookupL (s.check_utxo u amt).checked_utxo_id x).isSome := by
  unfold Stat.check_utxo
  split
  · exact h
  · exact lookupL_cons_isSome _ _ _ _ h

/-- `check_address` is a `SeedExt` step. -/
theorem check_address_seedExt (s : Stat) (o : Address) :
    SeedExt s (s.check_address o) := by
  obtain ⟨h1, h2, h3, h4, h5⟩ := check_address_frame s o
  obtain ⟨l, hl⟩ := check_address_queue_ext s o
  exact ⟨h1, h2, h5, fun x hx => by rw [h4]; exact hx,
    fun a ha => check_address_checked_mono s o a ha,
    ⟨[], by simp [h3], by simp⟩, ⟨l, hl⟩,
    fun x hx => Or.inl (by rw [h4] at hx; exact hx)⟩

/-- `check_utxo` is a `SeedExt` step. -/
theorem check_utxo_seedExt (s : Stat) (u : UtxoId) (amt : Amount) :
    SeedExt s (s.check_utxo u amt) := by
  by_cases ht : (lookupL s.checked_utxo_id u).isSome
  · have he : s.check_utxo u amt = s := by
      unfold Stat.check_utxo
      rw [if_pos ht]
    rw [he]
    exact ⟨rfl, rfl, rfl, fun _ hx => hx, fun _ ha => ha, ⟨[], by simp, by simp⟩,
      ⟨[], by simp⟩, fun _ hx => Or.inl hx⟩
  · have he : s.check_utxo u amt =
        { s with utxo_id_to_check := s.utxo_id_to_check ++ [u],
                 checked_utxo_id := (u, amt) :: s.checked_utxo_id } := by
      unfold Stat.check_utxo
      rw [if_neg ht]
    rw [he]
    refine ⟨rfl, rfl, rfl, ?_, fun a ha => ha, ⟨[u], rfl, ?_⟩, ⟨[], by simp⟩, ?_⟩
    · intro x hx
      exact lookupL_cons_isSome _ _ _ _ hx
    · intro x hx
      rw [List.mem_singleton] at hx
      subst hx
      rw [lookupL_cons_self]
      rfl
    · intro x hx
      by_cases hxu : x = u
      · subst hxu
        simp
      · left
        rw [lookupL_cons_ne _ _ _ _ fun h => hxu h.symm] at hx
        exact hx

/-- `SeedExt` is reflexive. -/
theorem seedExt_refl (s : Stat) : SeedExt s s :=
  ⟨rfl, rfl, rfl, fun _ hx => hx, fun _ ha => ha, ⟨[], by simp, by simp⟩,
    ⟨[], by simp⟩, fun _ hx => Or.inl hx⟩

/-- `SeedExt` is transitive. -/
theorem seedExt_trans {s1 s2 s3 : Stat} (h12 : SeedExt s1 s2)
    (h23 : SeedExt s2 s3) : SeedExt s1 s3 := by
  obtain ⟨a1, a2, a3, a4, a5, ⟨la, ha, hta⟩, ⟨ma, hma⟩, ra⟩ := h12
  obtain ⟨b1, b2, b3, b4, b5, ⟨lb, hb, htb⟩, ⟨mb, hmb⟩, rb⟩ := h23
  refine ⟨by rw [b1, a1], by rw [b2, a2], by rw [b3, a3],
    fun x hx => b4 x (a4 x hx), fun a haa => b5 a (a5 a haa),
    ⟨la ++ lb, by rw [hb, ha, List.append_assoc], ?_⟩,
    ⟨ma ++ mb, by rw [hmb, hma, List.append_assoc]⟩, ?_⟩
  · intro x hx
    rcases List.mem_append.mp hx with hx | hx
    · exact b4 x (hta x hx)
    · exact htb x hx
  · intro x hx
    rcases rb x hx with hx2 | hq
    · rcases ra x hx2 with hx1 | hq
      · exact Or.inl hx1
      · right
        rw [hb]
        exact List.mem_append_left _ hq
    · exact Or.inr hq

/-- `OutputSideExt` is reflexive. -/
theorem outputSideExt_refl (s : Stat) : OutputSideExt s s :=
  ⟨rfl, rfl, fun _ h => h⟩

/-- `OutputSideExt` is transitive. -/
theorem outputSideExt_trans {s1 s2 s3 : Stat} (h12 : OutputSideExt s1 s2)
    (h23 : OutputSideExt s2 s3) : OutputSideExt s1 s3 :=
  ⟨by rw [h23.1, h12.1], by rw [h23.2.1, h12.2.1],
    fun u hu => h23.2.2 u (h12.2.2 u hu)⟩

/-! ## Effects of the classification stages -/

/-- A successful `processReceipt` only appends to the message list. -/
theorem processReceipt_shape (cmid : ComputeMessageId) (base : AssetId)
    (s : Stat) (r : Receipt) (s' : Stat)
    (h : processReceipt cmid base s r = some s') :
    ∃ m, s' = { s with message_id := m } := by
  cases r with
  | transfer dest amount asset_id =>
    simp only [processReceipt] at h
    split_ifs at h <;>
      (injection h with h; exact ⟨s.message_id, by rw [← h]⟩)
  | transferOut dest amount asset_id =>
    simp only [processReceipt] at h
    split_ifs at h <;>
      (injection h with h; exact ⟨s.message_id, by rw [← h]⟩)
  | messageOut sender recipient nonce amount data =>
    simp only [processReceipt] at h
    split_ifs at h
    · injection h with h
      exact ⟨s.message_id, by rw [← h]⟩
    · cases data with
      | none => exact absurd h (by simp)
      | some d =>
        injection h with h
        exact ⟨s.message_id ++ [cmid sender recipient nonce amount d], by rw [← h]⟩
  | otherReceipt =>
    simp only [processReceipt] at h
    injection h with h
    exact ⟨s.message_id, by rw [← h]⟩

/-- A successful receipt fold only appends to the message list. -/
theorem processReceipts_shape (cmid : ComputeMessageId) (base : AssetId) :
    ∀ rs s s', processReceipts cmid base s rs = some s' →
      ∃ m, s' = { s with message_id := m } := by
  intro rs
  induction rs with
  | nil =>
    intro s s' h
    injection h with h
    exact ⟨s.message_id, by rw [← h]⟩
  | cons r rest ih =>
    intro s s' h
    unfold processReceipts at h
    rcases hr : processReceipt cmid base s r with _ | s1 <;> rw [hr] at h
    · exact absurd h (by simp)
    · obtain ⟨m1, hm1⟩ := processReceipt_shape cmid base s r s1 hr
      obtain ⟨m2, hm2⟩ := ih s1 s' h
      subst hm1
      exact ⟨m2, hm2⟩

/-- One input-classification step is an `OutputSideExt` step, extends the
address queue only at the back, and keeps checked addresses and the
transaction cache. -/
theorem processInput_ext (t : TxId) (s : Stat) (i : Input) :
    OutputSideExt s (processInput t s i) ∧
    (∃ l, (processInput t s i).addresses_to_check = s.addresses_to_check ++ l) ∧
    (∀ a, a ∈ s.checked_addresses → a ∈ (processInput t s i).checked_addresses) ∧
    (∀ x, (lookupL s.txs x).isSome → (lookupL (processInput t s i).txs x).isSome) := by
  cases i with
  | coinSigned u o =>
    obtain ⟨f1, f2, f3, f4, f5⟩ := check_address_frame (s.spent_utxo u t) o
    refine ⟨⟨?_, ?_, ?_⟩, ?_, ?_, ?_⟩
    · rw [processInput, f3]
      rfl
    · rw [processInput, f4]
      rfl
    · intro x hx
      rw [processInput, f1]
      exact lookupL_cons_isSome _ _ _ _ hx
    · rw [processInput]
      exact check_address_queue_ext _ o
    · intro a ha
      rw [processInput]
      exact check_address_checked_mono _ o a ha
    · intro x hx
      rw [processInput, f2]
      exact hx
  | coinPredicate u o =>
    obtain ⟨f1, f2, f3, f4, f5⟩ := check_address_frame (s.spent_utxo u t) o
    refine ⟨⟨?_, ?_, ?_⟩, ?_, ?_, ?_⟩
    · rw [processInput, f3]
      rfl
    · rw [processInput, f4]
      rfl
    · intro x hx
      rw [processInput, f1]
      exact lookupL_cons_isSome _ _ _ _ hx
    · rw [processInput]
      exact check_address_queue_ext _ o
    · intro a ha
      rw [processInput]
      exact check_address_checked_mono _ o a ha
    · intro x hx
      rw [processInput, f2]
      exact hx
  | otherInput =>
    exact ⟨outputSideExt_refl s, ⟨[], by simp [processInput]⟩,
      fun a ha => by rw [processInput]; exact ha,
      fun x hx => by rw [processInput]; exact hx⟩

/-- The input fold is an `OutputSideExt` step and preserves the cache and
the checked addresses. -/
theorem processInputs_ext (t : TxId) :
    ∀ ins s, OutputSideExt s (processInputs t s ins) ∧
      (∀ a, a ∈ s.checked_addresses → a ∈ (processInputs t s ins).checked_addresses) ∧
      (∀ x, (lookupL s.txs x).isSome → (lookupL (processInputs t s ins).txs x).isSome) := by
  intro ins
  induction ins with
  | nil =>
    intro s
    exact ⟨outputSideExt_refl s, fun _ ha => ha, fun _ hx => hx⟩
  | cons i rest ih =>
    intro s
    obtain ⟨e1, _, e3, e4⟩ := processInput_ext t s i
    obtain ⟨g1, g3, g4⟩ := ih (processInput t s i)
    have hfold : processInputs t s (i :: rest) =
        processInputs t (processInput t s i) rest := rfl
    rw [hfold]
    exact ⟨outputSideExt_trans e1 g1, fun a ha => g3 a (e3 a ha),
      fun x hx => g4 x (e4 x hx)⟩

/-- A successful `analyzeResponse` is an `OutputSideExt` step and
preserves the cache and the checked addresses. -/
theorem analyzeResponse_ext (cmid : ComputeMessageId) (base : AssetId)
    (s : Stat) (resp : TransactionResponse) (s' : Stat)
    (h : analyzeResponse cmid base s resp = some s') :
    OutputSideExt s s' ∧
    (∀ a, a ∈ s.checked_addresses → a ∈ s'.checked_addresses) ∧
    (∀ x, (lookupL s.txs x).isSome → (lookupL s'.txs x).isSome) := by
  unfold analyzeResponse at h
  set s1 : Stat := { s with txs := (resp.transaction.txid, resp.transaction) :: s.txs }
    with hs1
  have hbase : OutputSideExt s s1 ∧
      (∀ a, a ∈ s.checked_addresses → a ∈ s1.checked_addresses) ∧
      (∀ x, (lookupL s.txs x).isSome → (lookupL s1.txs x).isSome) := by
    refine ⟨⟨rfl, rfl, fun u hu => hu⟩, fun a ha => ha, ?_⟩
    intro x hx
    exact lookupL_cons_isSome _ _ _ _ hx
  rcases hst : resp.status with receipts | receipts | _ <;> rw [hst] at h
  · rcases hr : processReceipts cmid base s1 receipts with _ | s2 <;>
      rw [Stat.register_tx] at h <;> dsimp only at h <;> rw [hr] at h
    · exact absurd h (by simp)
    · injection h with h
      obtain ⟨m, hm⟩ := processReceipts_shape cmid base receipts s1 s2 hr
      obtain ⟨g1, g3, g4⟩ := processInputs_ext resp.transaction.txid
        resp.transaction.inputs s2
      subst hm
      rw [← h]
      refine ⟨outputSideExt_trans (outputSideExt_trans hbase.1 ⟨rfl, rfl, fun _ hu => hu⟩) g1,
        fun a ha => g3 a (hbase.2.1 a ha), fun x hx => g4 x (hbase.2.2 x hx)⟩
  · rcases hr : processReceipts cmid base s1 receipts with _ | s2 <;>
      rw [Stat.register_tx] at h <;> dsimp only at h <;> rw [hr] at h
    · exact absurd h (by simp)
    · injection h with h
      obtain ⟨m, hm⟩ := processReceipts_shape cmid base receipts s1 s2 hr
      obtain ⟨g1, g3, g4⟩ := processInputs_ext resp.transaction.txid
        resp.transaction.inputs s2
      subst hm
      rw [← h]
      refine ⟨outputSideExt_trans (outputSideExt_trans hbase.1 ⟨rfl, rfl, fun _ hu => hu⟩) g1,
        fun a ha => g3 a (hbase.2.1 a ha), fun x hx => g4 x (hbase.2.2 x hx)⟩
  · rw [Stat.register_tx] at h
    dsimp only at h
    exact absurd h (by simp)

/-- A successful `analyze_transactions` is an `OutputSideExt` step and
preserves the cache and the checked addresses. -/
theorem analyze_transactions_ext (cmid : ComputeMessageId) (base : AssetId) :
    ∀ txs s s', analyze_transactions cmid base txs s = some s' →
      OutputSideExt s s' ∧
      (∀ a, a ∈ s.checked_addresses → a ∈ s'.checked_addresses) ∧
      (∀ x, (lookupL s.txs x).isSome → (lookupL s'.txs x).isSome) := by
  intro txs
  induction txs with
  | nil =>
    intro s s' h
    injection h with h
    subst h
    exact ⟨outputSideExt_refl _, fun _ ha => ha, fun _ hx => hx⟩
  | cons resp rest ih =>
    intro s s' h
    unfold analyze_transactions at h
    rcases hr : analyzeResponse cmid base s resp with _ | s1 <;> rw [hr] at h
    · exact absurd h (by simp)
    · obtain ⟨e1, e3, e4⟩ := analyzeResponse_ext cmid base s resp s1 hr
      obtain ⟨g1, g3, g4⟩ := ih s1 s' h
      exact ⟨outputSideExt_trans e1 g1, fun a ha => g3 a (e3 a ha),
        fun x hx => g4 x (e4 x hx)⟩

/-- A successful inner drain is an `OutputSideExt` step that empties the
address queue and preserves the cache. -/
theorem drainAddresses_ext (ds : DataSource) (cmid : ComputeMessageId)
    (base : AssetId) :
    ∀ fuel s s', drainAddresses ds cmid base fuel s = .ok s' →
      OutputSideExt s s' ∧ s'.addresses_to_check = [] ∧
      (∀ x, (lookupL s.txs x).isSome → (lookupL s'.txs x).isSome) := by
  intro fuel
  induction fuel with
  | zero =>
    intro s s' h
    unfold drainAddresses at h
    rcases hn : s.next_address with _ | p <;> rw [hn] at h
    · injection h with h
      subst h
      exact ⟨outputSideExt_refl _, next_address_eq_none hn, fun _ hx => hx⟩
    · exact absurd h (by simp)
  | succ n ih =>
    intro s s' h
    unfold drainAddresses at h
    rcases hn : s.next_address with _ | ⟨owner, s1⟩ <;> rw [hn] at h
    · injection h with h
      subst h
      exact ⟨outputSideExt_refl _, next_address_eq_none hn, fun _ hx => hx⟩
    · dsimp only at h
      rcases hf : fetchOwnerTransactions ds owner with _ | txs <;> rw [hf] at h
      · exact absurd h (by simp)
      · dsimp only at h
        rcases ha : analyze_transactions cmid base txs s1 with _ | s2 <;> rw [ha] at h
        · exact absurd h (by simp)
        · dsimp only at h
          have hpop : OutputSideExt s s1 := by
            unfold Stat.next_address at hn
            rcases hq : s.addresses_to_check with _ | ⟨a, rest⟩ <;> rw [hq] at hn
            · exact absurd hn (by simp)
            · injection hn with hn
              injection hn with hn1 hn2
              rw [← hn2]
              exact ⟨rfl, rfl, fun _ hu => hu⟩
          obtain ⟨e1, _, e4⟩ := analyze_transactions_ext cmid base txs s1 s2 ha
          obtain ⟨g1, g2, g4⟩ := ih s2 s' h
          refine ⟨outputSideExt_trans (outputSideExt_trans hpop e1) g1, g2, ?_⟩
          intro x hx
          exact g4 x (e4 x (by
            have : s1.txs = s.txs := by
              unfold Stat.next_address at hn
              rcases hq : s.addresses_to_check with _ | ⟨a, rest⟩ <;> rw [hq] at hn
              · exact absurd hn (by simp)
              · injection hn with hn
                injection hn with hn1 hn2
                rw [← hn2]
            rw [this]
            exact hx))

/-- One output-classification step is a `SeedExt` step. -/
theorem processOutput_seedExt (base : AssetId) (t : TxId) (s : Stat)
    (io : Nat × Output) : SeedExt s (processOutput base t s io) := by
  rcases io with ⟨i, o⟩
  cases o with
  | coin dest amount asset_id =>
    simp only [processOutput]
    split_ifs
    · exact seedExt_refl s
    · exact seedExt_refl s
    · exact seedExt_trans (check_address_seedExt s dest) (check_utxo_seedExt _ _ _)
  | change dest amount asset_id =>
    simp only [processOutput]
    split_ifs
    · exact seedExt_refl s
    · exact seedExt_refl s
    · exact seedExt_trans (check_address_seedExt s dest) (check_utxo_seedExt _ _ _)
  | varOutput dest amount asset_id =>
    simp only [processOutput]
    split_ifs
    · exact seedExt_refl s
    · exact seedExt_refl s
    · exact seedExt_trans (check_address_seedExt s dest) (check_utxo_seedExt _ _ _)
  | otherOutput => exact seedExt_refl s

/-- The output fold is a `SeedExt` step. -/
theorem foldl_processOutput_seedExt (base : AssetId) (t : TxId) :
    ∀ (l : List (Nat × Output)) (s : Stat),
      SeedExt s (List.foldl (processOutput base t) s l) := by
  intro l
  induction l with
  | nil =>
    intro s
    exact seedExt_refl s
  | cons io rest ih =>
    intro s
    rw [List.foldl_cons]
    exact seedExt_trans (processOutput_seedExt base t s io) (ih _)

/-- `processOutputs` is a `SeedExt` step. -/
theorem processOutputs_seedExt (base : AssetId) (t : TxId) (s : Stat)
    (outs : List Output) : SeedExt s (processOutputs base t s outs) :=
  foldl_processOutput_seedExt base t outs.enum s

/-- A successful disposition check is a `SeedExt` step, and the popped
reference either had a recorded spend (unspent list unchanged) or had
none (it is appended to the unspent list). -/
theorem processUtxo_spec (base : AssetId) (s : Stat) (u : UtxoId)
    (acc : List UtxoId) (s' : Stat) (acc' : List UtxoId)
    (h : processUtxo base s u acc = some (s', acc')) :
    SeedExt s s' ∧
    (((lookupL s.utxo_ids u).isSome ∧ acc' = acc) ∨
      (lookupL s.utxo_ids u = none ∧ acc' = acc ++ [u])) := by
  unfold processUtxo at h
  rcases hl : lookupL s.utxo_ids u with _ | t <;> rw [hl] at h
  · dsimp only at h
    injection h with h
    injection h with h1 h2
    subst h1
    exact ⟨seedExt_refl s, Or.inr ⟨rfl, h2.symm⟩⟩
  · dsimp only at h
    rcases hc : lookupL s.txs t with _ | tx <;> rw [hc] at h
    · exact absurd h (by simp)
    · dsimp only at h
      injection h with h
      injection h with h1 h2
      refine ⟨?_, Or.inl ⟨by simp [hl], h2.symm⟩⟩
      rw [← h1]
      exact processOutputs_seedExt base t s tx.outputs

/-- The report construction succeeds when every listed reference is
tracked. -/
theorem mkReport_isSome (s : Stat) :
    ∀ us, (∀ u ∈ us, (lookupL s.checked_utxo_id u).isSome) →
      (mkReport s us).isSome := by
  intro us
  induction us with
  | nil =>
    intro
    simp [mkReport]
  | cons u rest ih =>
    intro h
    have hu := h u (List.mem_cons_self u rest)
    unfold mkReport
    rcases ho : lookupL s.checked_utxo_id u with _ | amt
    · rw [ho] at hu
      exact absurd hu (by simp)
    · dsimp only
      have hrest := ih (fun x hx => h x (List.mem_cons_of_mem _ hx))
      rcases hr : mkReport s rest with _ | rep
      · rw [hr] at hrest
        exact absurd hrest (by simp)
      · rfl

/-- The invariant carrier of the outer loop: when a run completes, the
unspent accumulator holds tracked references only, and every tracked
reference with no recorded spend in the final state is in it. -/
theorem runLoop_unspent_inv (ds : DataSource) (cmid : ComputeMessageId)
    (base : AssetId) :
    ∀ fuel s acc sf unspent,
      runLoop ds cmid base fuel s acc = .ok (sf, unspent) →
      (∀ u ∈ s.utxo_id_to_check, (lookupL s.checked_utxo_id u).isSome) →
      (∀ u ∈ acc, (lookupL s.checked_utxo_id u).isSome) →
      (∀ u, (lookupL s.checked_utxo_id u).isSome →
        u ∈ s.utxo_id_to_check ∨ u ∈ acc ∨ (lookupL s.utxo_ids u).isSome) →
      (∀ u ∈ unspent, (lookupL sf.checked_utxo_id u).isSome) ∧
      (∀ u, (lookupL sf.checked_utxo_id u).isSome → lookupL sf.utxo_ids u = none →
        u ∈ unspent) := by
  intro fuel
  induction fuel with
  | zero =>
    intro s acc sf unspent h hI1 hI2 hI3
    unfold runLoop at h
    rcases hn : s.next_utxo_id with _ | p <;> rw [hn] at h
    · injection h with h
      injection h with h1 h2
      subst h1
      subst h2
      have hq := next_utxo_eq_none hn
      refine ⟨hI2, ?_⟩
      intro u hu hnone
      rcases hI3 u hu with hq2 | hacc | hspent
      · rw [hq] at hq2
        exact absurd hq2 (by simp)
      · exact hacc
      · rw [hnone] at hspent
        exact absurd hspent (by simp)
    · exact absurd h (by simp)
  | succ n ih =>
    intro s acc sf unspent h hI1 hI2 hI3
    unfold runLoop at h
    rcases hn : s.next_utxo_id with _ | ⟨u0, s1⟩ <;> rw [hn] at h
    · injection h with h
      injection h with h1 h2
      subst h1
      subst h2
      have hq := next_utxo_eq_none hn
      refine ⟨hI2, ?_⟩
      intro u hu hnone
      rcases hI3 u hu with hq2 | hacc | hspent
      · rw [hq] at hq2
        exact absurd hq2 (by simp)
      · exact hacc
      · rw [hnone] at hspent
        exact absurd hspent (by simp)
    · dsimp only at h
      rcases hd : drainAddresses ds cmid base n s1 with e | s2 <;> rw [hd] at h
      · exact absurd h (by simp)
      · dsimp only at h
        rcases hp : processUtxo base s2 u0 acc with _ | ⟨s3, acc'⟩ <;> rw [hp] at h
        · exact absurd h (by simp)
        · dsimp only at h
          obtain ⟨qu, hq, hs1⟩ : ∃ qu, s.utxo_id_to_check = u0 :: qu ∧
              s1 = { s with utxo_id_to_check := qu } := by
            unfold Stat.next_utxo_id at hn
            rcases hq0 : s.utxo_id_to_check with _ | ⟨v, rest⟩ <;> rw [hq0] at hn
            · exact absurd hn (by simp)
            · injection hn with hn
              injection hn with hn1 hn2
              exact ⟨rest, by rw [hn1], hn2.symm⟩
          subst hs1
          obtain ⟨de, _, _⟩ := drainAddresses_ext ds cmid base n _ s2 hd
          obtain ⟨pse, pcase⟩ := processUtxo_spec base s2 u0 acc s3 acc' hp
          have hq2 : s2.utxo_id_to_check = qu := de.1
          have htr2 : s2.checked_utxo_id = s.checked_utxo_id := de.2.1
          obtain ⟨e1, e2, e3, htr3, _, ⟨l3, hql3, htl3⟩, _, hrev⟩ := pse
          have htracked23 : ∀ x, (lookupL s.checked_utxo_id x).isSome →
              (lookupL s3.checked_utxo_id x).isSome := by
            intro x hx
            exact htr3 x (by rw [htr2]; exact hx)
          have hspent23 : ∀ x, (lookupL s.utxo_ids x).isSome →
              (lookupL s3.utxo_ids x).isSome := by
            intro x hx
            rw [e1]
            exact de.2.2 x hx
          have haccsub : ∀ x, x ∈ acc → x ∈ acc' := by
            intro x hx
            rcases pcase with ⟨_, hacc⟩ | ⟨_, hacc⟩
            · rw [hacc]
              exact hx
            · rw [hacc]
              exact List.mem_append_left _ hx
          refine ih s3 acc' sf unspent h ?_ ?_ ?_
          · intro u hu
            rw [hql3, hq2] at hu
            rcases List.mem_append.mp hu with hu | hu
            · exact htracked23 u (hI1 u (by rw [hq]; exact List.mem_cons_of_mem _ hu))
            · exact htl3 u hu
          · intro u hu
            rcases pcase with ⟨_, hacc⟩ | ⟨_, hacc⟩
            · rw [hacc] at hu
              exact htracked23 u (hI2 u hu)
            · rw [hacc] at hu
              rcases List.mem_append.mp hu with hu | hu
              · exact htracked23 u (hI2 u hu)
              · rw [List.mem_singleton] at hu
                subst hu
                exact htracked23 u (hI1 u (by rw [hq]; exact List.mem_cons_self _ _))
          · intro u hu
            rcases hrev u hu with hu2 | hu2
            · rw [htr2] at hu2
              rcases hI3 u hu2 with hmem | hmem | hmem
              · rw [hq] at hmem
                rcases List.mem_cons.mp hmem with rfl | hmem
                · rcases pcase with ⟨hsp, _⟩ | ⟨_, hacc⟩
                  · right
                    right
                    rw [e1]
                    exact hsp
                  · right
                    left
                    rw [hacc]
                    exact List.mem_append_right _ (by simp)
                · left
                  rw [hql3, hq2]
                  exact List.mem_append_left _ hmem
              · exact Or.inr (Or.inl (haccsub u hmem))
              · exact Or.inr (Or.inr (hspent23 u hmem))
            · exact Or.inl hu2

/-- C6 counterexample: in the late-spend graph the run completes with
seed output (0, 1) in the unspent report even though the final spent-by
map records transaction 102 as spending it — the spend was discovered
only after (0, 1) had been dequeued and classified.  This contradicts
the claim that every output with a recorded spending transaction is
absent from the unspent set once the frontier is exhausted. -/
theorem claim_C6_counterexample :
    ((0, 1) : UtxoId) ∈
      ((runLoop dsLateSpend cmid0 0 10 statLateSpend []).toOption.map
        Prod.snd).getD [] ∧
    lookupL (((runLoop dsLateSpend cmid0 0 10 statLateSpend []).toOption.map
        Prod.fst).getD emptyStat).utxo_ids (0, 1) = some 102 := by
  decide

/-- C6 as amended: when a run completes from a state whose queued and
accumulated references are tracked and whose tracked references are
queued, accumulated or spent, then every reported-unspent reference is
tracked (so the final report pairs it with its tracked amount and the
report construction succeeds), and every tracked reference with no spend
recorded in the final spent-by map is in the unspent report.  An output
whose spend is recorded only after its dequeue-time check may however
appear in the unspent report despite a recorded spend (see the
counterexample), so membership reflects the dequeue-time check, not the
final map. -/
theorem claim_C6 (ds : DataSource) (cmid : ComputeMessageId) (base : AssetId)
    (fuel : Nat) (s : Stat) (acc : List UtxoId) (sf : Stat)
    (unspent : List UtxoId)
    (hrun : runLoop ds cmid base fuel s acc = .ok (sf, unspent))
    (hI1 : ∀ u ∈ s.utxo_id_to_check, (lookupL s.checked_utxo_id u).isSome)
    (hI2 : ∀ u ∈ acc, (lookupL s.checked_utxo_id u).isSome)
    (hI3 : ∀ u, (lookupL s.checked_utxo_id u).isSome →
      u ∈ s.utxo_id_to_check ∨ u ∈ acc ∨ (lookupL s.utxo_ids u).isSome) :
    (∀ u ∈ unspent, (lookupL sf.checked_utxo_id u).isSome) ∧
    (∀ u, (lookupL sf.checked_utxo_id u).isSome → lookupL sf.utxo_ids u = none →
      u ∈ unspent) ∧
    (mkReport sf unspent).isSome := by
  obtain ⟨p1, p2⟩ :=
    runLoop_unspent_inv ds cmid base fuel s acc sf unspent hrun hI1 hI2 hI3
  exact ⟨p1, p2, mkReport_isSome sf unspent p1⟩

/-- Witness for C6: the one-seed state on the all-empty graph runs to
completion and the final report is defined. -/
theorem claim_C6_witness :
    (mkReport
      { utxo_ids := [], txs := [], addresses_to_check := [],
        checked_addresses := [7], utxo_id_to_check := [],
        checked_utxo_id := [((0, 1), 20000000)], message_id := [] }
      [(0, 1)]).isSome :=
  (claim_C6 dsEmpty cmid0 0 5 statOneSeed []
    { utxo_ids := [], txs := [], addresses_to_check := [],
      checked_addresses := [7], utxo_id_to_check := [],
      checked_utxo_id := [((0, 1), 20000000)], message_id := [] }
    [(0, 1)] rfl (by decide) (by decide)
    (by
      intro u hu
      by_cases h : ((0, 1) : UtxoId) = u
      · subst h
        left
        decide
      · exfalso
        have hnone : lookupL statOneSeed.checked_utxo_id u = none := by
          show lookupL [((0, 1), 20000000)] u = none
          rw [lookupL_cons_ne _ _ _ _ h]
          rfl
        rw [hnone] at hu
        exact absurd hu (by simp))).2.2

/-! ## Facts for the termination bound -/

/-- Presence in a prepended association list, characterized. -/
theorem lookupL_cons_isSome_iff {α β : Type} [DecidableEq α] (l : List (α × β))
    (k a : α) (v : β) :
    (lookupL ((k, v) :: l) a).isSome ↔ (k = a ∨ (lookupL l a).isSome) := by
  by_cases hk : k = a <;> simp [lookupL, hk]

/-- An enumerated member's index is below the list length. -/
theorem mem_enum_lt {α : Type} {l : List α} {io : Nat × α} (h : io ∈ l.enum) :
    io.1 < l.length := by
  rw [List.mem_enum_iff_getElem?] at h
  exact (List.getElem?_eq_some.mp h).1

/-- `check_address` marks its argument checked. -/
theorem check_address_self (s : Stat) (a : Address) :
    a ∈ (s.check_address a).checked_addresses := by
  unfold Stat.check_address
  split
  · assumption
  · exact List.mem_cons_self _ _

/-- `check_address` leaves the address measure unchanged when the address
lies in the universe: a fresh address leaves the unreached set as it
enters the queue. -/
theorem check_address_measure (A : Finset Address) (s : Stat) (a : Address)
    (hA : a ∈ A) : addrMeasure A (s.check_address a) = addrMeasure A s := by
  by_cases h : a ∈ s.checked_addresses
  · have he : s.check_address a = s := by
      unfold Stat.check_address
      rw [if_pos h]
    rw [he]
  · have he : s.check_address a =
        { s with addresses_to_check := s.addresses_to_check ++ [a],
                 checked_addresses := a :: s.checked_addresses } := by
      unfold Stat.check_address
      rw [if_neg h]
    rw [he]
    unfold addrMeasure
    dsimp only
    have hfil : A.filter (fun x => x ∉ a :: s.checked_addresses) =
        (A.filter (fun x => x ∉ s.checked_addresses)).erase a := by
      ext x
      simp only [Finset.mem_filter, Finset.mem_erase, List.mem_cons, not_or]
      tauto
    have hmem : a ∈ A.filter (fun x => x ∉ s.checked_addresses) :=
      Finset.mem_filter.mpr ⟨hA, h⟩
    have hpos : 0 < (A.filter (fun x => x ∉ s.checked_addresses)).card :=
      Finset.card_pos.mpr ⟨a, hmem⟩
    rw [hfil, Finset.card_erase_of_mem hmem]
    simp only [List.length_append, List.length_singleton]
    omega

/-- `check_address` does not change the output-side measure. -/
theorem check_address_utxoMeasure (U : Finset UtxoId) (s : Stat) (a : Address) :
    utxoMeasure U (s.check_address a) = utxoMeasure U s := by
  obtain ⟨_, _, h3, h4, _⟩ := check_address_frame s a
  unfold utxoMeasure
  rw [h3, h4]

/-- `check_utxo` leaves the output measure unchanged when the reference
lies in the universe. -/
theorem check_utxo_measure (U : Finset UtxoId) (s : Stat) (u : UtxoId)
    (amt : Amount) (hU : u ∈ U) :
    utxoMeasure U (s.check_utxo u amt) = utxoMeasure U s := by
  by_cases h : (lookupL s.checked_utxo_id u).isSome
  · have he : s.check_utxo u amt = s := by
      unfold Stat.check_utxo
      rw [if_pos h]
    rw [he]
  · have he : s.check_utxo u amt =
        { s with utxo_id_to_check := s.utxo_id_to_check ++ [u],
                 checked_utxo_id := (u, amt) :: s.checked_utxo_id } := by
      unfold Stat.check_utxo
      rw [if_neg h]
    rw [he]
    unfold utxoMeasure
    dsimp only
    have hfil : U.filter (fun x => ¬ (lookupL ((u, amt) :: s.checked_utxo_id) x).isSome) =
        (U.filter (fun x => ¬ (lookupL s.checked_utxo_id x).isSome)).erase u := by
      ext x
      simp only [Finset.mem_filter, Finset.mem_erase, lookupL_cons_isSome_iff, not_or]
      constructor
      · rintro ⟨hxU, hne, hns⟩
        exact ⟨fun hxu => hne (by rw [hxu]), hxU, hns⟩
      · rintro ⟨hne, hxU, hns⟩
        exact ⟨hxU, fun hux => hne hux.symm, hns⟩
    have hmem : u ∈ U.filter (fun x => ¬ (lookupL s.checked_utxo_id x).isSome) :=
      Finset.mem_filter.mpr ⟨hU, h⟩
    have hpos : 0 < (U.filter (fun x => ¬ (lookupL s.checked_utxo_id x).isSome)).card :=
      Finset.card_pos.mpr ⟨u, hmem⟩
    rw [hfil, Finset.card_erase_of_mem hmem]
    simp only [List.length_append, List.length_singleton]
    omega

/-- `check_utxo` does not change the address measure. -/
theorem check_utxo_addrMeasure (A : Finset Address) (s : Stat) (u : UtxoId)
    (amt : Amount) : addrMeasure A (s.check_utxo u amt) = addrMeasure A s := by
  obtain ⟨_, _, h3, h4, _⟩ := check_utxo_frame s u amt
  unfold addrMeasure
  rw [h3, h4]

/-- `check_address` preserves the three address-side invariants when its
argument lies in the universe. -/
theorem check_address_inv (A : Finset Address) (s : Stat) (a : Address)
    (hA : a ∈ A)
    (h1 : s.addresses_to_check.Nodup)
    (h2 : ∀ x ∈ s.addresses_to_check, x ∈ s.checked_addresses)
    (h3 : ∀ x ∈ s.checked_addresses, x ∈ A) :
    (s.check_address a).addresses_to_check.Nodup ∧
    (∀ x ∈ (s.check_address a).addresses_to_check,
      x ∈ (s.check_address a).checked_addresses) ∧
    (∀ x ∈ (s.check_address a).checked_addresses, x ∈ A) := by
  by_cases h : a ∈ s.checked_addresses
  · have he : s.check_address a = s := by
      unfold Stat.check_address
      rw [if_pos h]
    rw [he]
    exact ⟨h1, h2, h3⟩
  · have he : s.check_address a =
        { s with addresses_to_check := s.addresses_to_check ++ [a],
                 checked_addresses := a :: s.checked_addresses } := by
      unfold Stat.check_address
      rw [if_neg h]
    rw [he]
    have ha : a ∉ s.addresses_to_check := fun hc => h (h2 a hc)
    refine ⟨?_, ?_, ?_⟩
    · rw [List.nodup_append]
      exact ⟨h1, List.nodup_singleton a,
        fun x hx hxa => ha (by rw [List.mem_singleton] at hxa; rw [← hxa]; exact hx)⟩
    · intro x hx
      rcases List.mem_append.mp hx with hx | hx
      · exact List.mem_cons_of_mem _ (h2 x hx)
      · rw [List.mem_singleton] at hx
        subst hx
        exact List.mem_cons_self _ _
    · intro x hx
      rcases List.mem_cons.mp hx with rfl | hx
      · exact hA
      · exact h3 x hx

/-- `check_utxo` preserves the three output-side invariants when its
argument lies in the universe. -/
theorem check_utxo_inv (U : Finset UtxoId) (s : Stat) (u : UtxoId) (amt : Amount)
    (hU : u ∈ U)
    (h4 : s.utxo_id_to_check.Nodup)
    (h5 : ∀ x ∈ s.utxo_id_to_check, (lookupL s.checked_utxo_id x).isSome)
    (h6 : ∀ x, (lookupL s.checked_utxo_id x).isSome → x ∈ U) :
    (s.check_utxo u amt).utxo_id_to_check.Nodup ∧
    (∀ x ∈ (s.check_utxo u amt).utxo_id_to_check,
      (lookupL (s.check_utxo u amt).checked_utxo_id x).isSome) ∧
    (∀ x, (lookupL (s.check_utxo u amt).checked_utxo_id x).isSome → x ∈ U) := by
  by_cases h : (lookupL s.checked_utxo_id u).isSome
  · have he : s.check_utxo u amt = s := by
      unfold Stat.check_utxo
      rw [if_pos h]
    rw [he]
    exact ⟨h4, h5, h6⟩
  · have he : s.check_utxo u amt =
        { s with utxo_id_to_check := s.utxo_id_to_check ++ [u],
                 checked_utxo_id := (u, amt) :: s.checked_utxo_id } := by
      unfold Stat.check_utxo
      rw [if_neg h]
    rw [he]
    have hu : u ∉ s.utxo_id_to_check := fun hc => h (h5 u hc)
    refine ⟨?_, ?_, ?_⟩
    · rw [List.nodup_append]
      exact ⟨h4, List.nodup_singleton u,
        fun x hx hxu => hu (by rw [List.mem_singleton] at hxu; rw [← hxu]; exact hx)⟩
    · intro x hx
      rcases List.mem_append.mp hx with hx | hx
      · exact lookupL_cons_isSome _ _ _ _ (h5 x hx)
      · rw [List.mem_singleton] at hx
        subst hx
        rw [lookupL_cons_self]
        rfl
    · intro x hx
      rcases (lookupL_cons_isSome_iff _ _ _ _).mp hx with rfl | hx
      · exact hU
      · exact h6 x hx

/-- A processable receipt classifies without a panic. -/
theorem processReceipt_run (cmid : ComputeMessageId) (base : AssetId)
    (s : Stat) (r : Receipt) (hg : goodReceipt r) :
    ∃ s', processReceipt cmid base s r = some s' := by
  cases r with
  | transfer dest amount asset_id =>
    simp only [processReceipt]
    split_ifs <;> exact ⟨s, rfl⟩
  | transferOut dest amount asset_id =>
    simp only [processReceipt]
    split_ifs <;> exact ⟨s, rfl⟩
  | messageOut sender recipient nonce amount data =>
    simp only [processReceipt]
    by_cases hle : amount ≤ THRESHOLD
    · rw [if_pos hle]
      exact ⟨s, rfl⟩
    · rw [if_neg hle]
      rcases hd : data with _ | d
      · exact absurd (hg (Nat.lt_of_not_le hle)) (by rw [hd]; simp)
      · exact ⟨_, rfl⟩
  | otherReceipt => exact ⟨s, rfl⟩

/-- A list of processable receipts classifies without a panic. -/
theorem processReceipts_run (cmid : ComputeMessageId) (base : AssetId) :
    ∀ rs s, (∀ x ∈ rs, goodReceipt x) →
      ∃ s', processReceipts cmid base s rs = some s' := by
  intro rs
  induction rs with
  | nil =>
    intro s _
    exact ⟨s, rfl⟩
  | cons r rest ih =>
    intro s hg
    obtain ⟨s1, hs1⟩ := processReceipt_run cmid base s r (hg r (List.mem_cons_self _ _))
    obtain ⟨s', hs'⟩ := ih s1 (fun x hx => hg x (List.mem_cons_of_mem _ hx))
    refine ⟨s', ?_⟩
    unfold processReceipts
    rw [hs1]
    exact hs'

/-- Recording a spend by a cached transaction and seeding its owner
preserves the address-side invariants, the spend-cache link, the cache
itself and the address measure. -/
theorem spent_then_check_run (A : Finset Address) (t : TxId) (s : Stat)
    (u : UtxoId) (o : Address) (hoA : o ∈ A)
    (h1 : s.addresses_to_check.Nodup)
    (h2 : ∀ x ∈ s.addresses_to_check, x ∈ s.checked_addresses)
    (h3 : ∀ x ∈ s.checked_addresses, x ∈ A)
    (h7 : ∀ x t', lookupL s.utxo_ids x = some t' → (lookupL s.txs t').isSome)
    (hc : (lookupL s.txs t).isSome) :
    ((s.spent_utxo u t).check_address o).addresses_to_check.Nodup ∧
    (∀ x ∈ ((s.spent_utxo u t).check_address o).addresses_to_check,
      x ∈ ((s.spent_utxo u t).check_address o).checked_addresses) ∧
    (∀ x ∈ ((s.spent_utxo u t).check_address o).checked_addresses, x ∈ A) ∧
    (∀ x t', lookupL ((s.spent_utxo u t).check_address o).utxo_ids x = some t' →
      (lookupL ((s.spent_utxo u t).check_address o).txs t').isSome) ∧
    ((s.spent_utxo u t).check_address o).txs = s.txs ∧
    addrMeasure A ((s.spent_utxo u t).check_address o) = addrMeasure A s := by
  obtain ⟨f1, f2, _, _, _⟩ := check_address_frame (s.spent_utxo u t) o
  have hsp : (s.spent_utxo u t).addresses_to_check = s.addresses_to_check := rfl
  have hspc : (s.spent_utxo u t).checked_addresses = s.checked_addresses := rfl
  obtain ⟨g1, g2, g3⟩ := check_address_inv A (s.spent_utxo u t) o hoA
    (by rw [hsp]; exact h1) (by rw [hsp, hspc]; exact h2) (by rw [hspc]; exact h3)
  refine ⟨g1, g2, g3, ?_, ?_, ?_⟩
  · intro x t' hx
    rw [f1] at hx
    rw [f2]
    have hx2 : lookupL ((u, t) :: s.utxo_ids) x = some t' := hx
    show (lookupL s.txs t').isSome
    by_cases hux : u = x
    · subst hux
      rw [lookupL_cons_self] at hx2
      injection hx2 with hx2
      rw [← hx2]
      exact hc
    · rw [lookupL_cons_ne _ _ _ _ hux] at hx2
      exact h7 x t' hx2
  · rw [f2]
    rfl
  · have hm : addrMeasure A (s.spent_utxo u t) = addrMeasure A s := rfl
    rw [check_address_measure A (s.spent_utxo u t) o hoA, hm]

/-- The input fold preserves the address-side invariants, the spend-cache
link, the cache itself and the address measure, provided every input
owner lies in the universe and the registering transaction is cached. -/
theorem processInputs_run (A : Finset Address) (t : TxId) :
    ∀ ins s, (∀ i ∈ ins, ∀ a ∈ inputOwners i, a ∈ A) →
      s.addresses_to_check.Nodup →
      (∀ x ∈ s.addresses_to_check, x ∈ s.checked_addresses) →
      (∀ x ∈ s.checked_addresses, x ∈ A) →
      (∀ x t', lookupL s.utxo_ids x = some t' → (lookupL s.txs t').isSome) →
      (lookupL s.txs t).isSome →
      (processInputs t s ins).addresses_to_check.Nodup ∧
      (∀ x ∈ (processInputs t s ins).addresses_to_check,
        x ∈ (processInputs t s ins).checked_addresses) ∧
      (∀ x ∈ (processInputs t s ins).checked_addresses, x ∈ A) ∧
      (∀ x t', lookupL (processInputs t s ins).utxo_ids x = some t' →
        (lookupL (processInputs t s ins).txs t').isSome) ∧
      (processInputs t s ins).txs = s.txs ∧
      addrMeasure A (processInputs t s ins) = addrMeasure A s := by
  intro ins
  induction ins with
  | nil =>
    intro s _ h1 h2 h3 h7 _
    exact ⟨h1, h2, h3, h7, rfl, rfl⟩
  | cons i rest ih =>
    intro s hown h1 h2 h3 h7 hc
    have hfold : processInputs t s (i :: rest) =
        processInputs t (processInput t s i) rest := rfl
    rw [hfold]
    have hstep : (processInput t s i).addresses_to_check.Nodup ∧
        (∀ x ∈ (processInput t s i).addresses_to_check,
          x ∈ (processInput t s i).checked_addresses) ∧
        (∀ x ∈ (processInput t s i).checked_addresses, x ∈ A) ∧
        (∀ x t', lookupL (processInput t s i).utxo_ids x = some t' →
          (lookupL (processInput t s i).txs t').isSome) ∧
        (processInput t s i).txs = s.txs ∧
        addrMeasure A (processInput t s i) = addrMeasure A s := by
      cases i with
      | coinSigned u o =>
        exact spent_then_check_run A t s u o
          (hown _ (List.mem_cons_self _ _) o (by simp [inputOwners])) h1 h2 h3 h7 hc
      | coinPredicate u o =>
        exact spent_then_check_run A t s u o
          (hown _ (List.mem_cons_self _ _) o (by simp [inputOwners])) h1 h2 h3 h7 hc
      | otherInput => exact ⟨h1, h2, h3, h7, rfl, rfl⟩
    obtain ⟨p1, p2, p3, p7, ptxs, pm⟩ := hstep
    obtain ⟨q1, q2, q3, q7, qtxs, qm⟩ := ih (processInput t s i)
      (fun j hj => hown j (List.mem_cons_of_mem _ hj)) p1 p2 p3 p7
      (by rw [ptxs]; exact hc)
    exact ⟨q1, q2, q3, q7, by rw [qtxs, ptxs], by rw [qm, pm]⟩

/-- A classifiable fetched response analyzes without a panic, preserving
the address-side invariants, the spend-cache link, the fetched-cache
characterization and the address measure. -/
theorem analyzeResponse_run (ds : DataSource) (cmid : ComputeMessageId)
    (base : AssetId) (A : Finset Address) (resp : TransactionResponse)
    (hgood : GoodResponse resp)
    (hfetched : IsFetched ds resp.transaction)
    (howners : ∀ i ∈ resp.transaction.inputs, ∀ a ∈ inputOwners i, a ∈ A)
    (s : Stat)
    (h1 : s.addresses_to_check.Nodup)
    (h2 : ∀ x ∈ s.addresses_to_check, x ∈ s.checked_addresses)
    (h3 : ∀ x ∈ s.checked_addresses, x ∈ A)
    (h7 : ∀ x t', lookupL s.utxo_ids x = some t' → (lookupL s.txs t').isSome)
    (h8 : ∀ t' tx, lookupL s.txs t' = some tx → IsFetched ds tx ∧ tx.txid = t') :
    ∃ s', analyzeResponse cmid base s resp = some s' ∧
      s'.addresses_to_check.Nodup ∧
      (∀ x ∈ s'.addresses_to_check, x ∈ s'.checked_addresses) ∧
      (∀ x ∈ s'.checked_addresses, x ∈ A) ∧
      (∀ x t', lookupL s'.utxo_ids x = some t' → (lookupL s'.txs t').isSome) ∧
      (∀ t' tx, lookupL s'.txs t' = some tx → IsFetched ds tx ∧ tx.txid = t') ∧
      addrMeasure A s' = addrMeasure A s := by
  set s1 : Stat := { s with
    txs := (resp.transaction.txid, resp.transaction) :: s.txs } with hs1
  have hb1 : s1.addresses_to_check.Nodup := h1
  have hb2 : ∀ x ∈ s1.addresses_to_check, x ∈ s1.checked_addresses := h2
  have hb3 : ∀ x ∈ s1.checked_addresses, x ∈ A := h3
  have hb7 : ∀ x t', lookupL s1.utxo_ids x = some t' → (lookupL s1.txs t').isSome := by
    intro x t' hx
    exact lookupL_cons_isSome _ _ _ _ (h7 x t' hx)
  have hb8 : ∀ t' tx, lookupL s1.txs t' = some tx → IsFetched ds tx ∧ tx.txid = t' := by
    intro t' tx hx
    have hx2 : lookupL ((resp.transaction.txid, resp.transaction) :: s.txs) t' =
        some tx := hx
    by_cases he : resp.transaction.txid = t'
    · subst he
      rw [lookupL_cons_self] at hx2
      injection hx2 with hx2
      rw [← hx2]
      exact ⟨hfetched, rfl⟩
    · rw [lookupL_cons_ne _ _ _ _ he] at hx2
      exact h8 t' tx hx2
  have hbm : addrMeasure A s1 = addrMeasure A s := rfl
  have hbc : (lookupL s1.txs resp.transaction.txid).isSome := by
    show (lookupL ((resp.transaction.txid, resp.transaction) :: s.txs)
      resp.transaction.txid).isSome
    rw [lookupL_cons_self]
    rfl
  rcases hst : resp.status with receipts | receipts | _
  · have hg : ∀ x ∈ receipts, goodReceipt x := by
      have := hgood
      unfold GoodResponse at this
      rw [hst] at this
      exact this
    obtain ⟨s2, hs2⟩ := processReceipts_run cmid base receipts s1 hg
    obtain ⟨m, hm⟩ := processReceipts_shape cmid base receipts s1 s2 hs2
    have hc2 : (lookupL s2.txs resp.transaction.txid).isSome := by
      rw [hm]
      exact hbc
    obtain ⟨q1, q2, q3, q7, qtxs, qm⟩ := processInputs_run A resp.transaction.txid
      resp.transaction.inputs s2 howners (by rw [hm]; exact hb1)
      (by rw [hm]; exact hb2) (by rw [hm]; exact hb3) (by rw [hm]; exact hb7) hc2
    refine ⟨processInputs resp.transaction.txid s2 resp.transaction.inputs, ?_,
      q1, q2, q3, q7, ?_, ?_⟩
    · unfold analyzeResponse
      rw [Stat.register_tx]
      dsimp only
      rw [hst]
      dsimp only
      rw [← hs1, hs2]
    · intro t' tx hx
      rw [qtxs, hm] at hx
      exact hb8 t' tx hx
    · rw [qm, hm]
      exact hbm
  · have hg : ∀ x ∈ receipts, goodReceipt x := by
      have := hgood
      unfold GoodResponse at this
      rw [hst] at this
      exact this
    obtain ⟨s2, hs2⟩ := processReceipts_run cmid base receipts s1 hg
    obtain ⟨m, hm⟩ := processReceipts_shape cmid base receipts s1 s2 hs2
    have hc2 : (lookupL s2.txs resp.transaction.txid).isSome := by
      rw [hm]
      exact hbc
    obtain ⟨q1, q2, q3, q7, qtxs, qm⟩ := processInputs_run A resp.transaction.txid
      resp.transaction.inputs s2 howners (by rw [hm]; exact hb1)
      (by rw [hm]; exact hb2) (by rw [hm]; exact hb3) (by rw [hm]; exact hb7) hc2
    refine ⟨processInputs resp.transaction.txid s2 resp.transaction.inputs, ?_,
      q1, q2, q3, q7, ?_, ?_⟩
    · unfold analyzeResponse
      rw [Stat.register_tx]
      dsimp only
      rw [hst]
      dsimp only
      rw [← hs1, hs2]
    · intro t' tx hx
      rw [qtxs, hm] at hx
      exact hb8 t' tx hx
    · rw [qm, hm]
      exact hbm
  · exact absurd hgood (by unfold GoodResponse; rw [hst]; simp)

/-- A list of classifiable fetched responses analyzes without a panic,
preserving the invariants and the address measure. -/
theorem analyze_transactions_run (ds : DataSource) (cmid : ComputeMessageId)
    (base : AssetId) (A : Finset Address) :
    ∀ txs s,
      (∀ r ∈ txs, GoodResponse r) →
      (∀ r ∈ txs, IsFetched ds r.transaction) →
      (∀ r ∈ txs, ∀ i ∈ r.transaction.inputs, ∀ a ∈ inputOwners i, a ∈ A) →
      s.addresses_to_check.Nodup →
      (∀ x ∈ s.addresses_to_check, x ∈ s.checked_addresses) →
      (∀ x ∈ s.checked_addresses, x ∈ A) →
      (∀ x t', lookupL s.utxo_ids x = some t' → (lookupL s.txs t').isSome) →
      (∀ t' tx, lookupL s.txs t' = some tx → IsFetched ds tx ∧ tx.txid = t') →
      ∃ s', analyze_transactions cmid base txs s = some s' ∧
        s'.addresses_to_check.Nodup ∧
        (∀ x ∈ s'.addresses_to_check, x ∈ s'.checked_addresses) ∧
        (∀ x ∈ s'.checked_addresses, x ∈ A) ∧
        (∀ x t', lookupL s'.utxo_ids x = some t' → (lookupL s'.txs t').isSome) ∧
        (∀ t' tx, lookupL s'.txs t' = some tx → IsFetched ds tx ∧ tx.txid = t') ∧
        addrMeasure A s' = addrMeasure A s := by
  intro txs
  induction txs with
  | nil =>
    intro s _ _ _ h1 h2 h3 h7 h8
    exact ⟨s, rfl, h1, h2, h3, h7, h8, rfl⟩
  | cons r rest ih =>
    intro s hg hf how h1 h2 h3 h7 h8
    obtain ⟨s1, hs1, p1, p2, p3, p7, p8, pm⟩ := analyzeResponse_run ds cmid base A r
      (hg r (List.mem_cons_self _ _)) (hf r (List.mem_cons_self _ _))
      (how r (List.mem_cons_self _ _)) s h1 h2 h3 h7 h8
    obtain ⟨s', hs', q1, q2, q3, q7, q8, qm⟩ := ih s1
      (fun x hx => hg x (List.mem_cons_of_mem _ hx))
      (fun x hx => hf x (List.mem_cons_of_mem _ hx))
      (fun x hx => how x (List.mem_cons_of_mem _ hx)) p1 p2 p3 p7 p8
    refine ⟨s', ?_, q1, q2, q3, q7, q8, by rw [qm, pm]⟩
    unfold analyze_transactions
    rw [hs1]
    dsimp only
    exact hs'

/-- On a well-formed data source the inner drain succeeds whenever the
fuel covers the address measure, emptying the address queue, keeping the
invariants, not increasing the measure, and leaving the output side
untouched. -/
theorem drainAddresses_run (ds : DataSource) (cmid : ComputeMessageId)
    (base : AssetId) (A : Finset Address)
    (hds1 : ∀ owner, ∃ txs, fetchOwnerTransactions ds owner = some txs)
    (hds2 : ∀ owner txs, fetchOwnerTransactions ds owner = some txs →
      ∀ r ∈ txs, GoodResponse r)
    (hds3 : ∀ owner txs, fetchOwnerTransactions ds owner = some txs →
      ∀ r ∈ txs, ∀ i ∈ r.transaction.inputs, ∀ a ∈ inputOwners i, a ∈ A) :
    ∀ fuel s,
      s.addresses_to_check.Nodup →
      (∀ x ∈ s.addresses_to_check, x ∈ s.checked_addresses) →
      (∀ x ∈ s.checked_addresses, x ∈ A) →
      (∀ x t', lookupL s.utxo_ids x = some t' → (lookupL s.txs t').isSome) →
      (∀ t' tx, lookupL s.txs t' = some tx → IsFetched ds tx ∧ tx.txid = t') →
      addrMeasure A s ≤ fuel →
      ∃ s', drainAddresses ds cmid base fuel s = .ok s' ∧
        s'.addresses_to_check = [] ∧
        (∀ x ∈ s'.checked_addresses, x ∈ A) ∧
        (∀ x t', lookupL s'.utxo_ids x = some t' → (lookupL s'.txs t').isSome) ∧
        (∀ t' tx, lookupL s'.txs t' = some tx → IsFetched ds tx ∧ tx.txid = t') ∧
        addrMeasure A s' ≤ addrMeasure A s ∧
        OutputSideExt s s' ∧
        (∀ a ∈ s.checked_addresses, a ∈ s'.checked_addresses) := by
  intro fuel
  induction fuel with
  | zero =>
    intro s h1 h2 h3 h7 h8 hm
    have hq : s.addresses_to_check = [] := by
      have hlen : s.addresses_to_check.length = 0 := by
        unfold addrMeasure at hm
        omega
      exact List.length_eq_zero.mp hlen
    refine ⟨s, ?_, hq, h3, h7, h8, le_refl _, outputSideExt_refl s, fun _ ha => ha⟩
    unfold drainAddresses
    rw [next_address_nil hq]
  | succ n ih =>
    intro s h1 h2 h3 h7 h8 hm
    rcases hq : s.addresses_to_check with _ | ⟨a, rest⟩
    · refine ⟨s, ?_, hq, h3, h7, h8, le_refl _, outputSideExt_refl s, fun _ ha => ha⟩
      unfold drainAddresses
      rw [next_address_nil hq]
    · obtain ⟨txs, htxs⟩ := hds1 a
      set s1 : Stat := { s with addresses_to_check := rest } with hs1def
      have p1 : s1.addresses_to_check.Nodup := by
        have hn := h1
        rw [hq] at hn
        exact hn.of_cons
      have p2 : ∀ x ∈ s1.addresses_to_check, x ∈ s1.checked_addresses := by
        intro x hx
        exact h2 x (by rw [hq]; exact List.mem_cons_of_mem _ hx)
      have p3 : ∀ x ∈ s1.checked_addresses, x ∈ A := h3
      have p7 : ∀ x t', lookupL s1.utxo_ids x = some t' →
          (lookupL s1.txs t').isSome := h7
      have p8 : ∀ t' tx, lookupL s1.txs t' = some tx →
          IsFetched ds tx ∧ tx.txid = t' := h8
      have hm1 : addrMeasure A s = addrMeasure A s1 + 1 := by
        unfold addrMeasure
        rw [hq]
        simp only [List.length_cons]
        rfl
      obtain ⟨s2, ha2, q1, q2, q3, q7, q8, qm⟩ := analyze_transactions_run ds cmid
        base A txs s1 (hds2 a txs htxs)
        (fun r hr => ⟨a, txs, htxs, r, hr, rfl⟩) (hds3 a txs htxs) p1 p2 p3 p7 p8
      obtain ⟨s', hdr, r0, r3, r7, r8, rm, rext, rmono⟩ := ih s2 q1 q2 q3 q7 q8
        (by rw [qm]; omega)
      refine ⟨s', ?_, r0, r3, r7, r8, by rw [qm] at rm; omega, ?_, ?_⟩
      · unfold drainAddresses
        rw [next_address_cons hq]
        dsimp only
        rw [← hs1def, htxs]
        dsimp only
        rw [ha2]
        exact hdr
      · have e01 : OutputSideExt s s1 := ⟨rfl, rfl, fun _ hu => hu⟩
        obtain ⟨e12, _, _⟩ := analyze_transactions_ext cmid base txs s1 s2 ha2
        exact outputSideExt_trans (outputSideExt_trans e01 e12) rext
      · intro x hx
        obtain ⟨_, emono, _⟩ := analyze_transactions_ext cmid base txs s1 s2 ha2
        exact rmono x (emono x hx)

/-- Checked destinations persist under checked-address growth. -/
theorem bigDestsChecked_mono (base : AssetId) (tx : Transaction) {s s' : Stat}
    (hm : ∀ a ∈ s.checked_addresses, a ∈ s'.checked_addresses)
    (h : BigDestsChecked base tx s) : BigDestsChecked base tx s' :=
  fun io hio d hd => hm d (h io hio d hd)

/-- One output-classification step either leaves the output side alone
(because the output is not seedable or its reference is already tracked)
or tracks and queues exactly the derived reference. -/
theorem processOutput_cases (base : AssetId) (t : TxId) (s : Stat)
    (io : Nat × Output) :
    ((processOutput base t s io).checked_utxo_id = s.checked_utxo_id ∧
      (processOutput base t s io).utxo_id_to_check = s.utxo_id_to_check ∧
      (bigBaseDests base io.2 = [] ∨
        (lookupL s.checked_utxo_id (t, io.1 % 256)).isSome)) ∨
    (bigBaseDests base io.2 ≠ [] ∧ ∃ amt,
      (processOutput base t s io).checked_utxo_id =
        ((t, io.1 % 256), amt) :: s.checked_utxo_id ∧
      (processOutput base t s io).utxo_id_to_check =
        s.utxo_id_to_check ++ [(t, io.1 % 256)]) := by
  rcases io with ⟨i, o⟩
  cases o with
  | coin dest amount asset_id =>
    simp only [processOutput, bigBaseDests]
    split_ifs with h1 h2
    · exact Or.inl ⟨rfl, rfl, Or.inl rfl⟩
    · exact Or.inl ⟨rfl, rfl, Or.inl rfl⟩
    · obtain ⟨_, _, f3, f4, _⟩ := check_address_frame s dest
      by_cases ht : (lookupL s.checked_utxo_id (t, i % 256)).isSome
      · left
        have he : (s.check_address dest).check_utxo (t, i % 256) amount =
            s.check_address dest := by
          unfold Stat.check_utxo
          rw [if_pos (by rw [f4]; exact ht)]
        rw [he]
        exact ⟨f4, f3, Or.inr ht⟩
      · right
        refine ⟨by simp, amount, ?_, ?_⟩
        · have he : (s.check_address dest).check_utxo (t, i % 256) amount =
              { s.check_address dest with
                utxo_id_to_check :=
                  (s.check_address dest).utxo_id_to_check ++ [(t, i % 256)],
                checked_utxo_id :=
                  ((t, i % 256), amount) :: (s.check_address dest).checked_utxo_id } := by
            unfold Stat.check_utxo
            rw [if_neg (by rw [f4]; exact ht)]
          rw [he]
          show ((t, i % 256), amount) :: (s.check_address dest).checked_utxo_id =
            ((t, i % 256), amount) :: s.checked_utxo_id
          rw [f4]
        · have he : (s.check_address dest).check_utxo (t, i % 256) amount =
              { s.check_address dest with
                utxo_id_to_check :=
                  (s.check_address dest).utxo_id_to_check ++ [(t, i % 256)],
                checked_utxo_id :=
                  ((t, i % 256), amount) :: (s.check_address dest).checked_utxo_id } := by
            unfold Stat.check_utxo
            rw [if_neg (by rw [f4]; exact ht)]
          rw [he]
          show (s.check_address dest).utxo_id_to_check ++ [(t, i % 256)] =
            s.utxo_id_to_check ++ [(t, i % 256)]
          rw [f3]
  | change dest amount asset_id =>
    simp only [processOutput, bigBaseDests]
    split_ifs with h1 h2
    · exact Or.inl ⟨rfl, rfl, Or.inl rfl⟩
    · exact Or.inl ⟨rfl, rfl, Or.inl rfl⟩
    · obtain ⟨_, _, f3, f4, _⟩ := check_address_frame s dest
      by_cases ht : (lookupL s.checked_utxo_id (t, i % 256)).isSome
      · left
        have he : (s.check_address dest).check_utxo (t, i % 256) amount =
            s.check_address dest := by
          unfold Stat.check_utxo
          rw [if_pos (by rw [f4]; exact ht)]
        rw [he]
        exact ⟨f4, f3, Or.inr ht⟩
      · right
        refine ⟨by simp, amount, ?_, ?_⟩
        · have he : (s.check_address dest).check_utxo (t, i % 256) amount =
              { s.check_address dest with
                utxo_id_to_check :=
                  (s.check_address dest).utxo_id_to_check ++ [(t, i % 256)],
                checked_utxo_id :=
                  ((t, i % 256), amount) :: (s.check_address dest).checked_utxo_id } := by
            unfold Stat.check_utxo
            rw [if_neg (by rw [f4]; exact ht)]
          rw [he]
          show ((t, i % 256), amount) :: (s.check_address dest).checked_utxo_id =
            ((t, i % 256), amount) :: s.checked_utxo_id
          rw [f4]
        · have he : (s.check_address dest).check_utxo (t, i % 256) amount =
              { s.check_address dest with
                utxo_id_to_check :=
                  (s.check_address dest).utxo_id_to_check ++ [(t, i % 256)],
                checked_utxo_id :=
                  ((t, i % 256), amount) :: (s.check_address dest).checked_utxo_id } := by
            unfold Stat.check_utxo
            rw [if_neg (by rw [f4]; exact ht)]
          rw [he]
          show (s.check_address dest).utxo_id_to_check ++ [(t, i % 256)] =
            s.utxo_id_to_check ++ [(t, i % 256)]
          rw [f3]
  | varOutput dest amount asset_id =>
    simp only [processOutput, bigBaseDests]
    split_ifs with h1 h2
    · exact Or.inl ⟨rfl, rfl, Or.inl rfl⟩
    · exact Or.inl ⟨rfl, rfl, Or.inl rfl⟩
    · obtain ⟨_, _, f3, f4, _⟩ := check_address_frame s dest
      by_cases ht : (lookupL s.checked_utxo_id (t, i % 256)).isSome
      · left
        have he : (s.check_address dest).check_utxo (t, i % 256) amount =
            s.check_address dest := by
          unfold Stat.check_utxo
          rw [if_pos (by rw [f4]; exact ht)]
        rw [he]
        exact ⟨f4, f3, Or.inr ht⟩
      · right
        refine ⟨by simp, amount, ?_, ?_⟩
        · have he : (s.check_address dest).check_utxo (t, i % 256) amount =
              { s.check_address dest with
                utxo_id_to_check :=
                  (s.check_address dest).utxo_id_to_check ++ [(t, i % 256)],
                checked_utxo_id :=
                  ((t, i % 256), amount) :: (s.check_address dest).checked_utxo_id } := by
            unfold Stat.check_utxo
            rw [if_neg (by rw [f4]; exact ht)]
          rw [he]
          show ((t, i % 256), amount) :: (s.check_address dest).checked_utxo_id =
            ((t, i % 256), amount) :: s.checked_utxo_id
          rw [f4]
        · have he : (s.check_address dest).check_utxo (t, i % 256) amount =
              { s.check_address dest with
                utxo_id_to_check :=
                  (s.check_address dest).utxo_id_to_check ++ [(t, i % 256)],
                checked_utxo_id :=
                  ((t, i % 256), amount) :: (s.check_address dest).checked_utxo_id } := by
            unfold Stat.check_utxo
            rw [if_neg (by rw [f4]; exact ht)]
          rw [he]
          show (s.check_address dest).utxo_id_to_check ++ [(t, i % 256)] =
            s.utxo_id_to_check ++ [(t, i % 256)]
          rw [f3]
  | otherOutput => exact Or.inl ⟨rfl, rfl, Or.inl rfl⟩

/-- A `SeedExt` step never shortens the output queue. -/
theorem seedExt_queue_len {s s' : Stat} (h : SeedExt s s') :
    s.utxo_id_to_check.length ≤ s'.utxo_id_to_check.length := by
  obtain ⟨_, _, _, _, _, ⟨l, hl, _⟩, _, _⟩ := h
  rw [hl]
  simp

/-- If some enumerated output is seedable with an untracked derived
reference, the output fold strictly lengthens the output queue. -/
theorem fold_outputs_push (base : AssetId) (t : TxId) :
    ∀ (l : List (Nat × Output)) (s : Stat),
      (∃ io ∈ l, bigBaseDests base io.2 ≠ [] ∧
        ¬ (lookupL s.checked_utxo_id (t, io.1 % 256)).isSome) →
      s.utxo_id_to_check.length <
        (List.foldl (processOutput base t) s l).utxo_id_to_check.length := by
  intro l
  induction l with
  | nil =>
    rintro s ⟨io, hio, _⟩
    exact absurd hio (by simp)
  | cons io0 rest ih =>
    rintro s ⟨io, hio, hbig, hun⟩
    rw [List.foldl_cons]
    rcases processOutput_cases base t s io0 with ⟨hmap, hq, hside⟩ | ⟨_, amt, hmap, hq⟩
    · rcases List.mem_cons.mp hio with rfl | hio
      · rcases hside with hc | hc
        · exact absurd hc hbig
        · exact absurd hc hun
      · have hlt := ih (processOutput base t s io0) ⟨io, hio, hbig, by rw [hmap]; exact hun⟩
        rw [hq] at hlt
        exact hlt
    · have hmono := seedExt_queue_len (foldl_processOutput_seedExt base t rest
        (processOutput base t s io0))
      rw [hq] at hmono
      simp only [List.length_append, List.length_singleton] at hmono
      omega

/-- When the output fold does not lengthen the output queue, every
seedable output's derived reference was already tracked at entry. -/
theorem fold_outputs_tracked (base : AssetId) (t : TxId)
    (l : List (Nat × Output)) (s : Stat)
    (hlen : (List.foldl (processOutput base t) s l).utxo_id_to_check.length =
      s.utxo_id_to_check.length) :
    ∀ io ∈ l, ∀ d ∈ bigBaseDests base io.2,
      (lookupL s.checked_utxo_id (t, io.1 % 256)).isSome := by
  intro io hio d hd
  by_contra hun
  have hlt := fold_outputs_push base t l s
    ⟨io, hio, (by intro h; rw [h] at hd; exact absurd hd (by simp)), hun⟩
  omega

/-- When every seedable output's destination is checked and its derived
reference tracked, the output fold is the identity. -/
theorem fold_outputs_id (base : AssetId) (t : TxId) :
    ∀ (l : List (Nat × Output)) (s : Stat),
      (∀ io ∈ l, ∀ d ∈ bigBaseDests base io.2,
        d ∈ s.checked_addresses ∧
          (lookupL s.checked_utxo_id (t, io.1 % 256)).isSome) →
      List.foldl (processOutput base t) s l = s := by
  intro l
  induction l with
  | nil =>
    intro s _
    rfl
  | cons io0 rest ih =>
    intro s h
    rw [List.foldl_cons]
    have hhead : processOutput base t s io0 = s := by
      rcases io0 with ⟨i, o⟩
      cases o with
      | coin dest amount asset_id =>
        simp only [processOutput]
        split_ifs with h1 h2
        · rfl
        · rfl
        · obtain ⟨hd, ht⟩ := h (i, .coin dest amount asset_id)
            (List.mem_cons_self _ _) dest (by simp [bigBaseDests, h1, h2])
          have hca : s.check_address dest = s := by
            unfold Stat.check_address
            rw [if_pos hd]
          rw [hca]
          unfold Stat.check_utxo
          rw [if_pos ht]
      | change dest amount asset_id =>
        simp only [processOutput]
        split_ifs with h1 h2
        · rfl
        · rfl
        · obtain ⟨hd, ht⟩ := h (i, .change dest amount asset_id)
            (List.mem_cons_self _ _) dest (by simp [bigBaseDests, h1, h2])
          have hca : s.check_address dest = s := by
            unfold Stat.check_address
            rw [if_pos hd]
          rw [hca]
          unfold Stat.check_utxo
          rw [if_pos ht]
      | varOutput dest amount asset_id =>
        simp only [processOutput]
        split_ifs with h1 h2
        · rfl
        · rfl
        · obtain ⟨hd, ht⟩ := h (i, .varOutput dest amount asset_id)
            (List.mem_cons_self _ _) dest (by simp [bigBaseDests, h1, h2])
          have hca : s.check_address dest = s := by
            unfold Stat.check_address
            rw [if_pos hd]
          rw [hca]
          unfold Stat.check_utxo
          rw [if_pos ht]
      | otherOutput => rfl
    rw [hhead]
    exact ih s (fun io hio => h io (List.mem_cons_of_mem _ hio))

/-- After the output fold, every seedable destination of the folded list
is checked. -/
theorem fold_outputs_dests (base : AssetId) (t : TxId) :
    ∀ (l : List (Nat × Output)) (s : Stat), ∀ io ∈ l,
      ∀ d ∈ bigBaseDests base io.2,
        d ∈ (List.foldl (processOutput base t) s l).checked_addresses := by
  intro l
  induction l with
  | nil =>
    intro s io hio
    exact absurd hio (by simp)
  | cons io0 rest ih =>
    intro s io hio d hd
    rw [List.foldl_cons]
    rcases List.mem_cons.mp hio with rfl | hio
    · have hstep : d ∈ (processOutput base t s io).checked_addresses := by
        rcases io with ⟨i, o⟩
        cases o with
        | coin dest amount asset_id =>
          simp only [bigBaseDests] at hd
          split_ifs at hd with h1 h2
          · exact absurd hd (by simp)
          · exact absurd hd (by simp)
          · rw [List.mem_singleton] at hd
            subst hd
            simp only [processOutput]
            rw [if_neg h1, if_neg h2]
            obtain ⟨_, _, _, hcu, _⟩ :=
              check_utxo_frame (s.check_address d) (t, i % 256) amount
            rw [hcu]
            exact check_address_self s d
        | change dest amount asset_id =>
          simp only [bigBaseDests] at hd
          split_ifs at hd with h1 h2
          · exact absurd hd (by simp)
          · exact absurd hd (by simp)
          · rw [List.mem_singleton] at hd
            subst hd
            simp only [processOutput]
            rw [if_neg h1, if_neg h2]
            obtain ⟨_, _, _, hcu, _⟩ :=
              check_utxo_frame (s.check_address d) (t, i % 256) amount
            rw [hcu]
            exact check_address_self s d
        | varOutput dest amount asset_id =>
          simp only [bigBaseDests] at hd
          split_ifs at hd with h1 h2
          · exact absurd hd (by simp)
          · exact absurd hd (by simp)
          · rw [List.mem_singleton] at hd
            subst hd
            simp only [processOutput]
            rw [if_neg h1, if_neg h2]
            obtain ⟨_, _, _, hcu, _⟩ :=
              check_utxo_frame (s.check_address d) (t, i % 256) amount
            rw [hcu]
            exact check_address_self s d
        | otherOutput => exact absurd hd (by simp [bigBaseDests])
      exact (foldl_processOutput_seedExt base t rest
        (processOutput base t s io)).2.2.2.2.1 d hstep
    · exact ih (processOutput base t s io0) io hio d hd

/-- Every reference tracked after the output fold was tracked before or
derives from the spending transaction's id. -/
theorem fold_outputs_newkeys (base : AssetId) (t : TxId) :
    ∀ (l : List (Nat × Output)) (s : Stat) (u : UtxoId),
      (lookupL (List.foldl (processOutput base t) s l).checked_utxo_id u).isSome →
      (lookupL s.checked_utxo_id u).isSome ∨ u.1 = t := by
  intro l
  induction l with
  | nil =>
    intro s u hu
    exact Or.inl hu
  | cons io0 rest ih =>
    intro s u hu
    rw [List.foldl_cons] at hu
    rcases ih (processOutput base t s io0) u hu with hu | hu
    · rcases processOutput_cases base t s io0 with ⟨hmap, _, _⟩ | ⟨_, amt, hmap, _⟩
      · rw [hmap] at hu
        exact Or.inl hu
      · rw [hmap] at hu
        rcases (lookupL_cons_isSome_iff _ _ _ _).mp hu with he | hu
        · right
          rw [← he]
        · exact Or.inl hu
    · exact Or.inr hu

/-- Seeding a destination in the universe and tracking a reference in the
universe preserves the six queue invariants and both measures. -/
theorem check_then_track_inv (A : Finset Address) (U : Finset UtxoId) (s : Stat)
    (d : Address) (u : UtxoId) (amt : Amount) (hdA : d ∈ A) (huU : u ∈ U)
    (h1 : s.addresses_to_check.Nodup)
    (h2 : ∀ x ∈ s.addresses_to_check, x ∈ s.checked_addresses)
    (h3 : ∀ x ∈ s.checked_addresses, x ∈ A)
    (h4 : s.utxo_id_to_check.Nodup)
    (h5 : ∀ x ∈ s.utxo_id_to_check, (lookupL s.checked_utxo_id x).isSome)
    (h6 : ∀ x, (lookupL s.checked_utxo_id x).isSome → x ∈ U) :
    ((s.check_address d).check_utxo u amt).addresses_to_check.Nodup ∧
    (∀ x ∈ ((s.check_address d).check_utxo u amt).addresses_to_check,
      x ∈ ((s.check_address d).check_utxo u amt).checked_addresses) ∧
    (∀ x ∈ ((s.check_address d).check_utxo u amt).checked_addresses, x ∈ A) ∧
    ((s.check_address d).check_utxo u amt).utxo_id_to_check.Nodup ∧
    (∀ x ∈ ((s.check_address d).check_utxo u amt).utxo_id_to_check,
      (lookupL ((s.check_address d).check_utxo u amt).checked_utxo_id x).isSome) ∧
    (∀ x, (lookupL ((s.check_address d).check_utxo u amt).checked_utxo_id x).isSome →
      x ∈ U) ∧
    addrMeasure A ((s.check_address d).check_utxo u amt) = addrMeasure A s ∧
    utxoMeasure U ((s.check_address d).check_utxo u amt) = utxoMeasure U s := by
  obtain ⟨g1, g2, g3⟩ := check_address_inv A s d hdA h1 h2 h3
  obtain ⟨fa1, fa2, fa3, fa4, fa5⟩ := check_address_frame s d
  have g4 : (s.check_address d).utxo_id_to_check.Nodup := by
    rw [fa3]
    exact h4
  have g5 : ∀ x ∈ (s.check_address d).utxo_id_to_check,
      (lookupL (s.check_address d).checked_utxo_id x).isSome := by
    intro x hx
    rw [fa4]
    exact h5 x (by rw [← fa3]; exact hx)
  have g6 : ∀ x, (lookupL (s.check_address d).checked_utxo_id x).isSome → x ∈ U := by
    intro x hx
    rw [fa4] at hx
    exact h6 x hx
  obtain ⟨k4, k5, k6⟩ := check_utxo_inv U (s.check_address d) u amt huU g4 g5 g6
  obtain ⟨fb1, fb2, fb3, fb4, fb5⟩ := check_utxo_frame (s.check_address d) u amt
  refine ⟨?_, ?_, ?_, k4, k5, k6, ?_, ?_⟩
  · rw [fb3]
    exact g1
  · intro x hx
    rw [fb4]
    exact g2 x (by rw [← fb3]; exact hx)
  · intro x hx
    rw [fb4] at hx
    exact g3 x hx
  · rw [check_utxo_addrMeasure, check_address_measure A s d hdA]
  · rw [check_utxo_measure U (s.check_address d) u amt huU, check_address_utxoMeasure]

/-- One output-classification step preserves the six queue invariants and
both measures, provided its seedable destination and derived reference
lie in the universes. -/
theorem processOutput_inv (base : AssetId) (t : TxId) (A : Finset Address)
    (U : Finset UtxoId) (s : Stat) (io : Nat × Output)
    (hA : ∀ d ∈ bigBaseDests base io.2, d ∈ A)
    (hU : (t, io.1 % 256) ∈ U)
    (h1 : s.addresses_to_check.Nodup)
    (h2 : ∀ x ∈ s.addresses_to_check, x ∈ s.checked_addresses)
    (h3 : ∀ x ∈ s.checked_addresses, x ∈ A)
    (h4 : s.utxo_id_to_check.Nodup)
    (h5 : ∀ x ∈ s.utxo_id_to_check, (lookupL s.checked_utxo_id x).isSome)
    (h6 : ∀ x, (lookupL s.checked_utxo_id x).isSome → x ∈ U) :
    (processOutput base t s io).addresses_to_check.Nodup ∧
    (∀ x ∈ (processOutput base t s io).addresses_to_check,
      x ∈ (processOutput base t s io).checked_addresses) ∧
    (∀ x ∈ (processOutput base t s io).checked_addresses, x ∈ A) ∧
    (processOutput base t s io).utxo_id_to_check.Nodup ∧
    (∀ x ∈ (processOutput base t s io).utxo_id_to_check,
      (lookupL (processOutput base t s io).checked_utxo_id x).isSome) ∧
    (∀ x, (lookupL (processOutput base t s io).checked_utxo_id x).isSome → x ∈ U) ∧
    addrMeasure A (processOutput base t s io) = addrMeasure A s ∧
    utxoMeasure U (processOutput base t s io) = utxoMeasure U s := by
  rcases io with ⟨i, o⟩
  cases o with
  | coin dest amount asset_id =>
    simp only [processOutput]
    split_ifs with hc1 hc2
    · exact ⟨h1, h2, h3, h4, h5, h6, rfl, rfl⟩
    · exact ⟨h1, h2, h3, h4, h5, h6, rfl, rfl⟩
    · exact check_then_track_inv A U s dest (t, i % 256) amount
        (hA dest (by simp [bigBaseDests, hc1, hc2])) hU h1 h2 h3 h4 h5 h6
  | change dest amount asset_id =>
    simp only [processOutput]
    split_ifs with hc1 hc2
    · exact ⟨h1, h2, h3, h4, h5, h6, rfl, rfl⟩
    · exact ⟨h1, h2, h3, h4, h5, h6, rfl, rfl⟩
    · exact check_then_track_inv A U s dest (t, i % 256) amount
        (hA dest (by simp [bigBaseDests, hc1, hc2])) hU h1 h2 h3 h4 h5 h6
  | varOutput dest amount asset_id =>
    simp only [processOutput]
    split_ifs with hc1 hc2
    · exact ⟨h1, h2, h3, h4, h5, h6, rfl, rfl⟩
    · exact ⟨h1, h2, h3, h4, h5, h6, rfl, rfl⟩
    · exact check_then_track_inv A U s dest (t, i % 256) amount
        (hA dest (by simp [bigBaseDests, hc1, hc2])) hU h1 h2 h3 h4 h5 h6
  | otherOutput => exact ⟨h1, h2, h3, h4, h5, h6, rfl, rfl⟩

/-- The output fold preserves the six queue invariants and both measures
under the universe closures. -/
theorem fold_outputs_inv (base : AssetId) (t : TxId) (A : Finset Address)
    (U : Finset UtxoId) :
    ∀ (l : List (Nat × Output)) (s : Stat),
      (∀ io ∈ l, ∀ d ∈ bigBaseDests base io.2, d ∈ A) →
      (∀ io ∈ l, (t, io.1 % 256) ∈ U) →
      s.addresses_to_check.Nodup →
      (∀ x ∈ s.addresses_to_check, x ∈ s.checked_addresses) →
      (∀ x ∈ s.checked_addresses, x ∈ A) →
      s.utxo_id_to_check.Nodup →
      (∀ x ∈ s.utxo_id_to_check, (lookupL s.checked_utxo_id x).isSome) →
      (∀ x, (lookupL s.checked_utxo_id x).isSome → x ∈ U) →
      (List.foldl (processOutput base t) s l).addresses_to_check.Nodup ∧
      (∀ x ∈ (List.foldl (processOutput base t) s l).addresses_to_check,
        x ∈ (List.foldl (processOutput base t) s l).checked_addresses) ∧
      (∀ x ∈ (List.foldl (processOutput base t) s l).checked_addresses, x ∈ A) ∧
      (List.foldl (processOutput base t) s l).utxo_id_to_check.Nodup ∧
      (∀ x ∈ (List.foldl (processOutput base t) s l).utxo_id_to_check,
        (lookupL (List.foldl (processOutput base t) s l).checked_utxo_id x).isSome) ∧
      (∀ x, (lookupL (List.foldl (processOutput base t) s l).checked_utxo_id x).isSome →
        x ∈ U) ∧
      addrMeasure A (List.foldl (processOutput base t) s l) = addrMeasure A s ∧
      utxoMeasure U (List.foldl (processOutput base t) s l) = utxoMeasure U s := by
  intro l
  induction l with
  | nil =>
    intro s _ _ h1 h2 h3 h4 h5 h6
    exact ⟨h1, h2, h3, h4, h5, h6, rfl, rfl⟩
  | cons io0 rest ih =>
    intro s hA hU h1 h2 h3 h4 h5 h6
    rw [List.foldl_cons]
    obtain ⟨p1, p2, p3, p4, p5, p6, pa, pu⟩ := processOutput_inv base t A U s io0
      (hA io0 (List.mem_cons_self _ _)) (hU io0 (List.mem_cons_self _ _))
      h1 h2 h3 h4 h5 h6
    obtain ⟨q1, q2, q3, q4, q5, q6, qa, qu⟩ := ih (processOutput base t s io0)
      (fun io hio => hA io (List.mem_cons_of_mem _ hio))
      (fun io hio => hU io (List.mem_cons_of_mem _ hio)) p1 p2 p3 p4 p5 p6
    exact ⟨q1, q2, q3, q4, q5, q6, by rw [qa, pa], by rw [qu, pu]⟩

/-- On a well-formed graph the disposition check of one dequeued
reference succeeds and preserves the whole run invariant and both
measures; when it queues nothing new it changes nothing at all. -/
theorem processUtxo_run (ds : DataSource) (base : AssetId) (A : Finset Address)
    (U : Finset UtxoId) (S0 : List (UtxoId × Amount))
    (hgA : ∀ tx, IsFetched ds tx → ∀ io ∈ tx.outputs.enum,
      ∀ d ∈ bigBaseDests base io.2, d ∈ A)
    (hgU : ∀ tx, IsFetched ds tx → ∀ i, i < tx.outputs.length →
      (tx.txid, i % 256) ∈ U)
    (hgF : ∀ tx, IsFetched ds tx → ∀ j, lookupL S0 (tx.txid, j) = none)
    (hgQ : ∀ tx1 tx2, IsFetched ds tx1 → IsFetched ds tx2 →
      tx1.txid = tx2.txid → tx1 = tx2)
    (s : Stat) (u : UtxoId) (acc : List UtxoId)
    (h1 : s.addresses_to_check.Nodup)
    (h2 : ∀ x ∈ s.addresses_to_check, x ∈ s.checked_addresses)
    (h3 : ∀ x ∈ s.checked_addresses, x ∈ A)
    (h4 : s.utxo_id_to_check.Nodup)
    (h5 : ∀ x ∈ s.utxo_id_to_check, (lookupL s.checked_utxo_id x).isSome)
    (h6 : ∀ x, (lookupL s.checked_utxo_id x).isSome → x ∈ U)
    (h7 : ∀ x t', lookupL s.utxo_ids x = some t' → (lookupL s.txs t').isSome)
    (h8 : ∀ t' tx, lookupL s.txs t' = some tx → IsFetched ds tx ∧ tx.txid = t')
    (h9 : ∀ x, (lookupL s.checked_utxo_id x).isSome → (lookupL S0 x).isSome ∨
      ∃ tx, IsFetched ds tx ∧ tx.txid = x.1 ∧ BigDestsChecked base tx s) :
    ∃ s' acc', processUtxo base s u acc = some (s', acc') ∧
      s'.addresses_to_check.Nodup ∧
      (∀ x ∈ s'.addresses_to_check, x ∈ s'.checked_addresses) ∧
      (∀ x ∈ s'.checked_addresses, x ∈ A) ∧
      s'.utxo_id_to_check.Nodup ∧
      (∀ x ∈ s'.utxo_id_to_check, (lookupL s'.checked_utxo_id x).isSome) ∧
      (∀ x, (lookupL s'.checked_utxo_id x).isSome → x ∈ U) ∧
      (∀ x t', lookupL s'.utxo_ids x = some t' → (lookupL s'.txs t').isSome) ∧
      (∀ t' tx, lookupL s'.txs t' = some tx → IsFetched ds tx ∧ tx.txid = t') ∧
      (∀ x, (lookupL s'.checked_utxo_id x).isSome → (lookupL S0 x).isSome ∨
        ∃ tx, IsFetched ds tx ∧ tx.txid = x.1 ∧ BigDestsChecked base tx s') ∧
      addrMeasure A s' = addrMeasure A s ∧ utxoMeasure U s' = utxoMeasure U s ∧
      (∃ lu, s'.utxo_id_to_check = s.utxo_id_to_check ++ lu) ∧
      (s'.utxo_id_to_check = s.utxo_id_to_check → s' = s) := by
  rcases hl : lookupL s.utxo_ids u with _ | t
  · refine ⟨s, acc ++ [u], ?_, h1, h2, h3, h4, h5, h6, h7, h8, h9, rfl, rfl,
      ⟨[], by simp⟩, fun _ => rfl⟩
    unfold processUtxo
    rw [hl]
  · have hcache : (lookupL s.txs t).isSome := h7 u t hl
    rcases hc : lookupL s.txs t with _ | tx
    · rw [hc] at hcache
      exact absurd hcache (by simp)
    · obtain ⟨hfet, htid⟩ := h8 t tx hc
      have hA' : ∀ io ∈ tx.outputs.enum, ∀ d ∈ bigBaseDests base io.2, d ∈ A :=
        hgA tx hfet
      have hU' : ∀ io ∈ tx.outputs.enum, (t, io.1 % 256) ∈ U := by
        intro io hio
        rw [← htid]
        exact hgU tx hfet io.1 (mem_enum_lt hio)
      have hfold : processOutputs base t s tx.outputs =
          List.foldl (processOutput base t) s tx.outputs.enum := rfl
      obtain ⟨q1, q2, q3, q4, q5, q6, qa, qu⟩ := fold_outputs_inv base t A U
        tx.outputs.enum s hA' hU' h1 h2 h3 h4 h5 h6
      have hse := foldl_processOutput_seedExt base t tx.outputs.enum s
      obtain ⟨e1, e2, _, _, emono, ⟨lu, hlu, _⟩, _, _⟩ := hse
      refine ⟨List.foldl (processOutput base t) s tx.outputs.enum, acc, ?_,
        q1, q2, q3, q4, q5, q6, ?_, ?_, ?_, qa, qu, ⟨lu, hlu⟩, ?_⟩
      · unfold processUtxo
        rw [hl]
        dsimp only
        rw [hc]
        rfl
      · intro x t' hx
        rw [e1] at hx
        rw [e2]
        exact h7 x t' hx
      · intro t' tx' hx
        rw [e2] at hx
        exact h8 t' tx' hx
      · intro x hx
        rcases fold_outputs_newkeys base t tx.outputs.enum s x hx with hx2 | hx2
        · rcases h9 x hx2 with hs0 | ⟨tx', hf', he', hb'⟩
          · exact Or.inl hs0
          · exact Or.inr ⟨tx', hf', he', bigDestsChecked_mono base tx' emono hb'⟩
        · right
          refine ⟨tx, hfet, by rw [htid, hx2], ?_⟩
          intro io hio d hd
          exact fold_outputs_dests base t tx.outputs.enum s io hio d hd
      · intro hqeq
        have hlen : (List.foldl (processOutput base t) s
            tx.outputs.enum).utxo_id_to_check.length =
            s.utxo_id_to_check.length := by rw [hqeq]
        have htracked := fold_outputs_tracked base t tx.outputs.enum s hlen
        refine fold_outputs_id base t tx.outputs.enum s ?_
        intro io hio d hd
        have htk := htracked io hio d hd
        refine ⟨?_, htk⟩
        rcases h9 (t, io.1 % 256) htk with hs0 | ⟨tx', hf', he', hb'⟩
        · rw [← htid] at hs0
          rw [hgF tx hfet (io.1 % 256)] at hs0
          exact absurd hs0 (by simp)
        · have : tx' = tx := hgQ tx' tx hf' hfet (by rw [he', htid])
          rw [this] at hb'
          exact hb' io hio d hd

/-- Under the queue invariants each measure is bounded by its universe's
cardinality. -/
theorem measure_le_card (A : Finset Address) (U : Finset UtxoId) (s : Stat)
    (h1 : s.addresses_to_check.Nodup)
    (h2 : ∀ x ∈ s.addresses_to_check, x ∈ s.checked_addresses)
    (h3 : ∀ x ∈ s.checked_addresses, x ∈ A)
    (h4 : s.utxo_id_to_check.Nodup)
    (h5 : ∀ x ∈ s.utxo_id_to_check, (lookupL s.checked_utxo_id x).isSome)
    (h6 : ∀ x, (lookupL s.checked_utxo_id x).isSome → x ∈ U) :
    addrMeasure A s ≤ A.card ∧ utxoMeasure U s ≤ U.card := by
  constructor
  · have hsub : s.addresses_to_check.toFinset ⊆
        A.filter (fun a => a ∈ s.checked_addresses) := by
      intro x hx
      rw [List.mem_toFinset] at hx
      exact Finset.mem_filter.mpr ⟨h3 x (h2 x hx), h2 x hx⟩
    have hlen : s.addresses_to_check.length ≤
        (A.filter (fun a => a ∈ s.checked_addresses)).card := by
      rw [← List.toFinset_card_of_nodup h1]
      exact Finset.card_le_card hsub
    have hsplit : (A.filter (fun a => a ∈ s.checked_addresses)).card +
        (A.filter (fun a => a ∉ s.checked_addresses)).card = A.card :=
      Finset.filter_card_add_filter_neg_card_eq_card
        (fun a => a ∈ s.checked_addresses)
    unfold addrMeasure
    omega
  · have hsub : s.utxo_id_to_check.toFinset ⊆
        U.filter (fun u => (lookupL s.checked_utxo_id u).isSome) := by
      intro x hx
      rw [List.mem_toFinset] at hx
      exact Finset.mem_filter.mpr ⟨h6 x (h5 x hx), h5 x hx⟩
    have hlen : s.utxo_id_to_check.length ≤
        (U.filter (fun u => (lookupL s.checked_utxo_id u).isSome)).card := by
      rw [← List.toFinset_card_of_nodup h4]
      exact Finset.card_le_card hsub
    have hsplit : (U.filter (fun u => (lookupL s.checked_utxo_id u).isSome)).card +
        (U.filter (fun u => ¬ (lookupL s.checked_utxo_id u).isSome)).card = U.card :=
      Finset.filter_card_add_filter_neg_card_eq_card
        (fun u => (lookupL s.checked_utxo_id u).isSome)
    unfold utxoMeasure
    omega

/-- On a well-formed finite chain-data graph the outer loop runs to
completion with both queues empty whenever the fuel covers the sum of the
two measures. -/
theorem runLoop_term (ds : DataSource) (cmid : ComputeMessageId) (base : AssetId)
    (A : Finset Address) (U : Finset UtxoId) (S0 : List (UtxoId × Amount))
    (hgds : GoodDs ds base A U S0) :
    ∀ fuel s acc, RunInv ds base A U S0 s →
      addrMeasure A s + utxoMeasure U s ≤ fuel →
      ∃ sf unspent, runLoop ds cmid base fuel s acc = .ok (sf, unspent) ∧
        sf.addresses_to_check = [] ∧ sf.utxo_id_to_check = [] := by
  obtain ⟨g1, g2, g3, g4, g5, g6, g7⟩ := hgds
  intro fuel
  induction fuel with
  | zero =>
    intro s acc hinv hm
    obtain ⟨h1, h2, h3, h4, h5, h6, h7, h8, h9, hlink⟩ := hinv
    have hqu : s.utxo_id_to_check = [] := by
      refine List.length_eq_zero.mp ?_
      unfold utxoMeasure at hm
      omega
    refine ⟨s, acc, ?_, hlink hqu, hqu⟩
    unfold runLoop
    rw [next_utxo_nil hqu]
  | succ n ih =>
    intro s acc hinv hm
    obtain ⟨h1, h2, h3, h4, h5, h6, h7, h8, h9, hlink⟩ := hinv
    rcases hqu : s.utxo_id_to_check with _ | ⟨u0, qu⟩
    · refine ⟨s, acc, ?_, hlink hqu, hqu⟩
      unfold runLoop
      rw [next_utxo_nil hqu]
    · have hrecA : addrMeasure A ({ s with utxo_id_to_check := qu } : Stat) =
          addrMeasure A s := rfl
      have hmu1 : utxoMeasure U ({ s with utxo_id_to_check := qu } : Stat) + 1 =
          utxoMeasure U s := by
        unfold utxoMeasure
        rw [hqu]
        rfl
      obtain ⟨s2, hdr, d0, d3, d7, d8, dm, dext, dmono⟩ := drainAddresses_run ds
        cmid base A g1 g2 g3 n ({ s with utxo_id_to_check := qu } : Stat)
        h1 h2 h3 h7 h8 (by rw [hrecA]; omega)
      have hq2 : s2.utxo_id_to_check = qu := dext.1
      have hm2 : s2.checked_utxo_id = s.checked_utxo_id := dext.2.1
      have r1 : s2.addresses_to_check.Nodup := by
        rw [d0]
        exact List.nodup_nil
      have r2 : ∀ x ∈ s2.addresses_to_check, x ∈ s2.checked_addresses := by
        rw [d0]
        intro x hx
        exact absurd hx (by simp)
      have hquN : qu.Nodup := by
        rw [hqu] at h4
        exact h4.of_cons
      have r4 : s2.utxo_id_to_check.Nodup := by
        rw [hq2]
        exact hquN
      have r5 : ∀ x ∈ s2.utxo_id_to_check, (lookupL s2.checked_utxo_id x).isSome := by
        intro x hx
        rw [hq2] at hx
        rw [hm2]
        exact h5 x (by rw [hqu]; exact List.mem_cons_of_mem _ hx)
      have r6 : ∀ x, (lookupL s2.checked_utxo_id x).isSome → x ∈ U := by
        intro x hx
        rw [hm2] at hx
        exact h6 x hx
      have r9 : ∀ x, (lookupL s2.checked_utxo_id x).isSome →
          (lookupL S0 x).isSome ∨
          ∃ tx, IsFetched ds tx ∧ tx.txid = x.1 ∧ BigDestsChecked base tx s2 := by
        intro x hx
        rw [hm2] at hx
        rcases h9 x hx with hs0 | ⟨tx, hf, he, hb⟩
        · exact Or.inl hs0
        · exact Or.inr ⟨tx, hf, he, bigDestsChecked_mono base tx dmono hb⟩
      obtain ⟨s3, acc', hpu, t1, t2, t3, t4, t5, t6, t7, t8, t9, rmA, rmU,
        ⟨lu, hlu⟩, rid⟩ := processUtxo_run ds base A U S0 g4 g5 g6 g7 s2 u0 acc
        r1 r2 d3 r4 r5 r6 d7 d8 r9
      have hmu2 : utxoMeasure U s2 + 1 = utxoMeasure U s := by
        unfold utxoMeasure
        rw [hm2, hq2, hqu]
        rfl
      have t10 : s3.utxo_id_to_check = [] → s3.addresses_to_check = [] := by
        intro hq3
        rw [hlu, hq2] at hq3
        obtain ⟨hqunil, hlunil⟩ := List.append_eq_nil.mp hq3
        have hqeq : s3.utxo_id_to_check = s2.utxo_id_to_check := by
          rw [hlu, hlunil]
          simp
        rw [rid hqeq]
        exact d0
      obtain ⟨sf, unspent, hrun, hfa, hfu⟩ := ih s3 acc'
        ⟨t1, t2, t3, t4, t5, t6, t7, t8, t9, t10⟩
        (by rw [rmA, rmU]; omega)
      refine ⟨sf, unspent, ?_, hfa, hfu⟩
      unfold runLoop
      rw [next_utxo_cons hqu]
      dsimp only
      rw [hdr]
      dsimp only
      rw [hpu]
      dsimp only
      exact hrun

/-- C8: on every finite chain-data graph — universes `A` of addresses and
`U` of output references, closed under discovery from the seeds, with
total classifiable fetches and content-derived (collision-free)
transaction ids — a run from a well-formed seed state terminates with
both the address queue and the output-reference queue empty, within a
step budget of the number of addresses plus the number of output
references of the reachable universe. -/
theorem claim_C8 (ds : DataSource) (cmid : ComputeMessageId) (base : AssetId)
    (A : Finset Address) (U : Finset UtxoId) (s0 : Stat) (fuel : Nat)
    (hgds : GoodDs ds base A U s0.checked_utxo_id)
    (htxs0 : s0.txs = [])
    (hspent0 : s0.utxo_ids = [])
    (h1 : s0.addresses_to_check.Nodup)
    (h2 : ∀ x ∈ s0.addresses_to_check, x ∈ s0.checked_addresses)
    (h3 : ∀ x ∈ s0.checked_addresses, x ∈ A)
    (h4 : s0.utxo_id_to_check.Nodup)
    (h5 : ∀ x ∈ s0.utxo_id_to_check, (lookupL s0.checked_utxo_id x).isSome)
    (h6 : ∀ x, (lookupL s0.checked_utxo_id x).isSome → x ∈ U)
    (hlink : s0.utxo_id_to_check = [] → s0.addresses_to_check = [])
    (hfuel : A.card + U.card ≤ fuel) :
    ∃ sf unspent, runLoop ds cmid base fuel s0 [] = .ok (sf, unspent) ∧
      sf.addresses_to_check = [] ∧ sf.utxo_id_to_check = [] := by
  have h7 : ∀ x t', lookupL s0.utxo_ids x = some t' → (lookupL s0.txs t').isSome := by
    intro x t' hx
    rw [hspent0] at hx
    exact absurd hx (by simp [lookupL])
  have h8 : ∀ t' tx, lookupL s0.txs t' = some tx →
      IsFetched ds tx ∧ tx.txid = t' := by
    intro t' tx hx
    rw [htxs0] at hx
    exact absurd hx (by simp [lookupL])
  have h9 : ∀ x, (lookupL s0.checked_utxo_id x).isSome →
      (lookupL s0.checked_utxo_id x).isSome ∨
      ∃ tx, IsFetched ds tx ∧ tx.txid = x.1 ∧ BigDestsChecked base tx s0 :=
    fun x hx => Or.inl hx
  obtain ⟨hma, hmu⟩ := measure_le_card A U s0 h1 h2 h3 h4 h5 h6
  exact runLoop_term ds cmid base A U s0.checked_utxo_id hgds fuel s0 []
    ⟨h1, h2, h3, h4, h5, h6, h7, h8, h9, hlink⟩ (by omega)

/-- Witness for C8: the one-seed state on the all-empty graph, with
universes of one address and one reference, runs to completion with
empty queues within fuel 2 = 1 + 1. -/
theorem claim_C8_witness :
    ∃ sf unspent, runLoop dsEmpty cmid0 0 2 statOneSeed [] = .ok (sf, unspent) ∧
      sf.addresses_to_check = [] ∧ sf.utxo_id_to_check = [] := by
  have hnf : ∀ tx, ¬ IsFetched dsEmpty tx := by
    rintro tx ⟨owner, txs, hf, r, hr, _⟩
    injection hf with hf
    rw [← hf] at hr
    exact absurd hr (by simp)
  refine claim_C8 dsEmpty cmid0 0 {7} {(0, 1)} statOneSeed 2
    ⟨fun owner => ⟨[], rfl⟩, ?_, ?_, ?_, ?_, ?_, ?_⟩
    rfl rfl (by decide) (by decide) (by decide) (by decide) (by decide)
    ?_ (by decide) (by decide)
  · intro owner txs h r hr
    injection h with h
    rw [← h] at hr
    exact absurd hr (by simp)
  · intro owner txs h r hr
    injection h with h
    rw [← h] at hr
    exact absurd hr (by simp)
  · intro tx hf
    exact absurd hf (hnf tx)
  · intro tx hf
    exact absurd hf (hnf tx)
  · intro tx hf
    exact absurd hf (hnf tx)
  · intro tx1 tx2 hf
    exact absurd hf (hnf tx1)
  · intro x hx
    by_cases h : ((0, 1) : UtxoId) = x
    · rw [← h]
      decide
    · exfalso
      have hnone : lookupL statOneSeed.checked_utxo_id x = none := by
        show lookupL [((0, 1), 20000000)] x = none
        rw [lookupL_cons_ne _ _ _ _ h]
        rfl
      rw [hnone] at hx
      exact absurd hx (by simp)

end FuelTrace
